import Mathlib

/-!
# Cooperative resource governor

Shallow embedding of `common/concurrency/governor.h` (class `caspar::governor`
and its nested `struct impl`) and proofs of its admission-control contract,
followed by `filter::try_pop` of `modules/ffmpeg/util/filter.cpp`.

Every member function is embedded as one atomic step on the three fields of
`impl`.  The calls it makes into the Concurrency Runtime (`Context::Yield`,
`Context::Block`, `Context::Unblock`) are returned as a list of events, in
program order.

Arithmetic.  `count_` is a `tbb::atomic<int>`.  The constructor argument is a
`size_t` that is converted to `int` on assignment; this conversion is modelled
(`to_int`, two's complement, 32 bits).  `--count_` and `++count_` act on the
32-bit counter and wrap around (`wrap`): `--count_` takes `INT_MIN` to
`INT_MAX` and `++count_` takes `INT_MAX` to `INT_MIN`.

Contexts.  A context is an object of the Concurrency Runtime with a stack of
its own, and a parked context makes no call.  The runs of atomic steps
(`World.run`) are those of a process with fewer than `2^31` contexts: an
`acquire` is a step only while fewer than `MAX_PARKED = 2^31 - 1` contexts are
parked.  The member functions themselves carry no such bound.

Scheduling.  `Context::Yield()` touches no field of the governor; inside an
atomic step it is only recorded as an event.  A caller that issued
`Block` is parked: its `acquire` returns, with its ticket, when another step
issues the matching `Unblock`.

Interleaving.  Besides the atomic steps, `Sys.step` runs the same member
functions one field access at a time, for schedules in which calls of
different threads overlap.
-/

namespace caspar

/-- `Concurrency::Context*`: a scheduler context, identified by its address. -/
abbrev Context := Nat

/-- Calls made into the Concurrency Runtime, in program order. -/
inductive Event where
  | Yield : Event
  | Block : Context → Event
  | Unblock : Context → Event
deriving DecidableEq, Repr

/-- Largest value of `int`. -/
def INT_MAX : Int := 2147483647

/-- Smallest value of `int`. -/
def INT_MIN : Int := -2147483648

/-- Conversion `size_t → int` performed by `count_ = capacity`: the value
modulo `2^32`, read as a two's complement number. -/
def to_int (n : Nat) : Int :=
  if (n % 4294967296 : Nat) ≤ 2147483647 then ((n % 4294967296 : Nat) : Int)
  else ((n % 4294967296 : Nat) : Int) - 4294967296

/-- The value an `int` holds after an arithmetic step on it: the result
modulo `2^32`, read as a two's complement number. -/
def wrap (z : Int) : Int :=
  (z + 2147483648) % 4294967296 - 2147483648

/-- Address of a `governor::impl` object, the value of `shared_from_this()`. -/
abbrev ImplPtr := Nat

/-- One release capsule, `std::shared_ptr<void>(nullptr, [self](void*){ self->release_ticket(); })`.
Its only content is the captured `self`. -/
structure Capsule where
  self : ImplPtr
deriving DecidableEq, Repr

/-- `typedef std::vector<std::shared_ptr<void>> ticket_t`. -/
abbrev ticket_t := List Capsule

/-- `Concurrency::concurrent_queue<Context*>::try_pop`: the front element and
the rest of the queue, or nothing when the queue is empty. -/
def try_pop : List Context → Option (Context × List Context)
  | [] => none
  | w :: rest => some (w, rest)

namespace governor

/-- The fields of `struct governor::impl`. `is_running_` is a
`tbb::atomic<int>` used as a flag: `true` is stored as 1, `false` as 0, and
`!is_running_` tests for 0. The queue is kept front first. -/
structure impl where
  count_ : Int
  is_running_ : Int
  waiting_contexts_ : List Context
deriving DecidableEq, Repr

namespace impl

/-- `impl::impl(size_t capacity)`: `is_running_ = true; count_ = capacity;`
with the queue default-constructed. -/
def construct (capacity : Nat) : impl :=
  { count_ := to_int capacity, is_running_ := 1, waiting_contexts_ := [] }

/-- `void acquire_ticket()`, called by context `current`
(`Context::CurrentContext()`). A `Block current` event means the caller is
parked: the call only returns after an `Unblock current`. -/
def acquire_ticket (s : impl) (current : Context) : impl × List Event :=
  if s.is_running_ = 0 then (s, [])
  else
    let y : List Event := if s.count_ < 1 then [Event.Yield] else []
    let s1 : impl := { s with count_ := wrap (s.count_ - 1) }
    if s1.count_ < 0 then
      ({ s1 with waiting_contexts_ := s1.waiting_contexts_ ++ [current] },
        y ++ [Event.Block current])
    else (s1, y)

/-- `bool try_acquire_ticket()`. -/
def try_acquire_ticket (s : impl) : Bool × impl × List Event :=
  if s.is_running_ = 0 then (false, s, [])
  else
    let y : List Event := if s.count_ < 1 then [Event.Yield] else []
    let s1 : impl := { s with count_ := wrap (s.count_ - 1) }
    if s1.count_ < 0 then (false, { s1 with count_ := wrap (s1.count_ + 1) }, y)
    else (true, s1, y)

/-- `void release_ticket()`. When `++count_ <= 0` and the queue is empty the
loop `while(!waiting_contexts_.try_pop(waiting)) Yield();` never exits, since
no other step runs inside an atomic release: the result is `none`. -/
def release_ticket (s : impl) : Option (impl × List Event) :=
  if s.is_running_ = 0 then some (s, [])
  else
    let s1 : impl := { s with count_ := wrap (s.count_ + 1) }
    if s1.count_ ≤ 0 then
      match try_pop s1.waiting_contexts_ with
      | none => none
      | some (waiting, rest) =>
        some ({ s1 with waiting_contexts_ := rest }, [Event.Unblock waiting])
    else some (s1, [])

/-- The loop of `cancel`: `while(waiting_contexts_.try_pop(waiting)) waiting->Unblock();`.
Returns the queue left behind and the `Unblock` calls made. -/
def cancel_loop : List Context → List Context × List Event
  | [] => ([], [])
  | waiting :: rest =>
    ((cancel_loop rest).1, Event.Unblock waiting :: (cancel_loop rest).2)

/-- `void cancel()`. -/
def cancel (s : impl) : impl × List Event :=
  let s1 : impl := { s with is_running_ := 0 }
  ({ s1 with waiting_contexts_ := (cancel_loop s1.waiting_contexts_).1 },
    (cancel_loop s1.waiting_contexts_).2)

/-- `ticket_t acquire()`, with `self` the address of this `impl`. The ticket
is the one the caller holds when the call returns. -/
def acquire (s : impl) (self : ImplPtr) (current : Context) :
    ticket_t × impl × List Event :=
  ([Capsule.mk self], (s.acquire_ticket current).1, (s.acquire_ticket current).2)

/-- `bool try_acquire(ticket_t& ticket)`; the second component is the
caller's ticket vector after the call. -/
def try_acquire (s : impl) (self : ImplPtr) (ticket : ticket_t) :
    Bool × ticket_t × impl × List Event :=
  if s.try_acquire_ticket.1 = false then
    (false, ticket, s.try_acquire_ticket.2.1, s.try_acquire_ticket.2.2)
  else
    (true, ticket ++ [Capsule.mk self], s.try_acquire_ticket.2.1,
      s.try_acquire_ticket.2.2)

end impl

/-- One call on a governor. `acquire c` and `try_acquire c` are made by
context `c`; `release c` drops the last reference to a ticket that was granted
to `c`, which runs `release_ticket`. -/
inductive Op where
  | acquire : Context → Op
  | try_acquire : Context → Op
  | release : Context → Op
  | cancel : Op
deriving DecidableEq, Repr

/-- What one call did: the state it left, the runtime calls it made, and the
value returned by `try_acquire` (`true` for the other calls). -/
structure Result where
  state : impl
  events : List Event
  ok : Bool
deriving DecidableEq, Repr

/-- Apply one call to the governor state; `none` when `release_ticket` never
returns. -/
def impl.call (s : impl) : Op → Option Result
  | Op.acquire c => some ⟨(s.acquire_ticket c).1, (s.acquire_ticket c).2, true⟩
  | Op.try_acquire _ =>
    some ⟨s.try_acquire_ticket.2.1, s.try_acquire_ticket.2.2, s.try_acquire_ticket.1⟩
  | Op.release _ =>
    match s.release_ticket with
    | none => none
    | some r => some ⟨r.1, r.2, true⟩
  | Op.cancel => some ⟨s.cancel.1, s.cancel.2, true⟩

/-- Apply a sequence of calls, one after the other. -/
def impl.calls (s : impl) : List Op → Option impl
  | [] => some s
  | op :: ops =>
    match s.call op with
    | none => none
    | some r => impl.calls r.state ops

/-- The contexts woken by a list of runtime calls, in order. -/
def woken : List Event → List Context
  | [] => []
  | Event.Unblock c :: es => c :: woken es
  | Event.Yield :: es => woken es
  | Event.Block _ :: es => woken es

/-- A governor together with the bookkeeping the source does not store: the
live tickets (granted and not yet released), each named by the context it was
granted to. A context parked in `acquire` is in `waiting_contexts_` and gets
its ticket when it is unblocked. -/
structure World where
  gov : impl
  live : List Context
deriving DecidableEq, Repr

/-- The world right after `governor(capacity)`: no ticket has been issued. -/
def World.init (capacity : Nat) : World :=
  { gov := impl.construct capacity, live := [] }

/-- The live tickets after a call with result `r`. -/
def World.live_after (w : World) (op : Op) (r : Result) : List Context :=
  match op with
  | Op.acquire c => if Event.Block c ∈ r.events then w.live else w.live ++ [c]
  | Op.try_acquire c => if r.ok then w.live ++ [c] else w.live
  | Op.release c => w.live.erase c ++ woken r.events
  | Op.cancel => w.live ++ woken r.events

/-- The most contexts that can be parked at once: the process holds fewer
than `2^31` contexts, and the caller of `acquire` is one that is not parked. -/
def MAX_PARKED : Nat := 2147483647

/-- One atomic step. A `release c` needs a live ticket of `c`; the step is
`none` when there is none, or when `release_ticket` never returns. An
`acquire` needs a context that is not parked: it is a step only while fewer
than `MAX_PARKED` contexts are parked. -/
def World.step (w : World) (op : Op) : Option (World × List Event) :=
  match op with
  | Op.release c =>
    if c ∈ w.live then
      match w.gov.call op with
      | none => none
      | some r => some ({ gov := r.state, live := w.live_after op r }, r.events)
    else none
  | Op.acquire _ =>
    if w.gov.waiting_contexts_.length < MAX_PARKED then
      match w.gov.call op with
      | none => none
      | some r => some ({ gov := r.state, live := w.live_after op r }, r.events)
    else none
  | _ =>
    match w.gov.call op with
    | none => none
    | some r => some ({ gov := r.state, live := w.live_after op r }, r.events)

/-- Run a sequence of atomic steps; returns the final world and the runtime
calls of each step. -/
def World.run (w : World) : List Op → Option (World × List (List Event))
  | [] => some (w, [])
  | op :: ops =>
    match w.step op with
    | none => none
    | some (w1, ev) =>
      match World.run w1 ops with
      | none => none
      | some (w2, evs) => some (w2, ev :: evs)

/-- Accounting invariant of the data model, for configured capacity `N`:
with `count_ >= 0` the live tickets number `N - count_`, and with `count_ < 0`
the parked contexts number `-count_`. -/
def Accounting (N : Nat) (w : World) : Prop :=
  (0 ≤ w.gov.count_ → (w.live.length : Int) = (N : Int) - w.gov.count_) ∧
  (w.gov.count_ < 0 → (w.gov.waiting_contexts_.length : Int) = -w.gov.count_)

instance (N : Nat) (w : World) : Decidable (Accounting N w) := by
  unfold Accounting
  exact inferInstance

/-- Ticket balance against a capacity `cap`: the units not handed out are
`count_` when it is non-negative, and none when it is negative. -/
def Balanced (cap : Int) (w : World) : Prop :=
  (0 ≤ w.gov.count_ → (w.live.length : Int) + w.gov.count_ = cap) ∧
  (w.gov.count_ < 0 → (w.live.length : Int) = cap)

instance (cap : Int) (w : World) : Decidable (Balanced cap w) := by
  unfold Balanced
  exact inferInstance

/-- Queue balance: nobody is parked while `count_ >= 0`, and `-count_`
contexts are parked while it is negative. -/
def Parked (w : World) : Prop :=
  (0 ≤ w.gov.count_ → w.gov.waiting_contexts_ = []) ∧
  (w.gov.count_ < 0 → (w.gov.waiting_contexts_.length : Int) = -w.gov.count_)

instance (w : World) : Decidable (Parked w) := by
  unfold Parked
  exact inferInstance

/-- The callers of the `acquire` calls of a sequence, in order. -/
def acquirers : List Op → List Context
  | [] => []
  | Op.acquire c :: ops => c :: acquirers ops
  | Op.try_acquire _ :: ops => acquirers ops
  | Op.release _ :: ops => acquirers ops
  | Op.cancel :: ops => acquirers ops

/-! ### Shared ownership of a capsule -/

/-- Modelled from the spec: the reference counting of `std::shared_ptr<void>`,
which is library code outside the repository. A capsule is "shared-owned
(reference-counted)", "copies of a ticket share capsules", and the release
action is "triggered automatically when the capsule's last owning reference
disappears". `owners` lists the ticket objects that hold a reference to the
capsule; the deleter is `self->release_ticket()` as written in `acquire`. -/
structure SharedCapsule where
  capsule : Capsule
  owners : List Nat
deriving DecidableEq, Repr

/-- Modelled from the spec: copying ticket object `src` into the new ticket
object `dst` adds one owning reference to the capsule that `src` holds. -/
def SharedCapsule.copy (c : SharedCapsule) (src dst : Nat) : SharedCapsule :=
  if src ∈ c.owners then { c with owners := c.owners ++ [dst] } else c

/-- Ticket object 0 copied `k` times, into the ticket objects `1, ..., k`. -/
def SharedCapsule.copies (c : SharedCapsule) : Nat → SharedCapsule
  | 0 => c
  | k + 1 => (c.copies k).copy 0 (k + 1)

/-- Modelled from the spec: destroying ticket object `t` gives up its reference.
When it was the last one the deleter runs `release_ticket` on the issuing
governor, whose state is `s`. Returns the governor state, the capsule, and
whether `release_ticket` was invoked; `none` when `t` holds no reference or
`release_ticket` never returns. -/
def SharedCapsule.drop (c : SharedCapsule) (s : impl) (t : Nat) :
    Option (impl × SharedCapsule × Bool) :=
  if t ∈ c.owners then
    if c.owners.erase t = [] then
      match s.release_ticket with
      | none => none
      | some r => some (r.1, { c with owners := [] }, true)
    else some (s, { c with owners := c.owners.erase t }, false)
  else none

/-- Destroy the ticket objects of `order` one after the other; the list of
booleans tells, drop by drop, whether `release_ticket` was invoked. -/
def SharedCapsule.drop_all (c : SharedCapsule) (s : impl) :
    List Nat → Option (impl × SharedCapsule × List Bool)
  | [] => some (s, c, [])
  | t :: order =>
    match c.drop s t with
    | none => none
    | some (s1, c1, fired) =>
      match SharedCapsule.drop_all c1 s1 order with
      | none => none
      | some (s2, c2, log) => some (s2, c2, fired :: log)

/-- Modelled from the spec: the capsules of the ticket object `t` as `acquire`
returns it or `try_acquire` fills it: each capsule is new and `t` holds its
only reference. -/
def ticket_capsules (ticket : ticket_t) (t : Nat) : List SharedCapsule :=
  ticket.map fun capsule => ⟨capsule, [t]⟩

/-! ### Interleaved execution

Each thread makes one call; thread `i` runs on context `i`. A step of a
thread is one access to a field of `impl` or one call of the queue or of the
runtime, as the statements of the member functions are written. The test
`count_ < 1` before `Yield()` changes nothing and is part of the step that
follows it. -/

/-- Where a thread stands in its call. -/
inductive Pc where
  /-- In `acquire_ticket`, before `if(!is_running_) return;`. -/
  | acquire_enter : Pc
  /-- In `acquire_ticket`, before `--count_ < 0`. -/
  | acquire_decrement : Pc
  /-- In `acquire_ticket`, before `waiting_contexts_.push(context)`. -/
  | acquire_push : Pc
  /-- In `acquire_ticket`, before `context->Block()`. -/
  | acquire_block : Pc
  /-- Inside `Block()`, waiting for `Unblock`. -/
  | parked : Pc
  /-- The call `acquire` or `try_acquire` returned a ticket that is live. -/
  | holding : Pc
  /-- The ticket the thread held has been dropped. -/
  | dropped : Pc
  /-- In `try_acquire_ticket`, before `if(!is_running_) return false;`. -/
  | try_enter : Pc
  /-- In `try_acquire_ticket`, before `--count_ < 0`. -/
  | try_decrement : Pc
  /-- In `try_acquire_ticket`, before `++count_`. -/
  | try_undo : Pc
  /-- The call `try_acquire` returned false. -/
  | try_failed : Pc
  /-- The thread is about to drop the ticket held by thread `holder`, which
  runs `release_ticket`: before `if(!is_running_) return;`. -/
  | release_enter (holder : Context) : Pc
  /-- In `release_ticket`, before `++count_ <= 0`. -/
  | release_increment : Pc
  /-- In `release_ticket`, in the loop `while(!try_pop(waiting)) Yield();`. -/
  | release_pop : Pc
  /-- The call `release_ticket` returned. -/
  | release_done : Pc
  /-- In `cancel`, before `is_running_ = false`. -/
  | cancel_enter : Pc
  /-- In `cancel`, in the loop `while(try_pop(waiting)) waiting->Unblock();`. -/
  | cancel_loop : Pc
  /-- The call `cancel` returned. -/
  | cancel_done : Pc
deriving DecidableEq, Repr

/-- The governor, the threads, and the contexts for which `Unblock` ran
before their `Block` (that `Block` then returns at once). -/
structure Sys where
  gov : impl
  threads : List Pc
  unblocked : List Context
deriving DecidableEq, Repr

/-- Put thread `t` at `pc`. -/
def Sys.goto (σ : Sys) (t : Nat) (pc : Pc) : Sys :=
  { σ with threads := σ.threads.set t pc }

/-- `waiting->Unblock()`: a parked thread resumes and its `acquire` returns
the ticket; otherwise the unblock is remembered for its coming `Block`. -/
def Sys.unblock (σ : Sys) (waiting : Context) : Sys :=
  if σ.threads.get? waiting = some Pc.parked then σ.goto waiting Pc.holding
  else { σ with unblocked := σ.unblocked ++ [waiting] }

/-- One step of thread `t`; `none` when the thread has no step to take (it
is parked, its call has returned, or the ticket it should drop is not held). -/
def Sys.step (σ : Sys) (t : Nat) : Option Sys :=
  match σ.threads.get? t with
  | none => none
  | some Pc.acquire_enter =>
    if σ.gov.is_running_ = 0 then some (σ.goto t Pc.holding)
    else some (σ.goto t Pc.acquire_decrement)
  | some Pc.acquire_decrement =>
    if wrap (σ.gov.count_ - 1) < 0 then
      some (Sys.goto { σ with gov := { σ.gov with count_ := wrap (σ.gov.count_ - 1) } } t
        Pc.acquire_push)
    else
      some (Sys.goto { σ with gov := { σ.gov with count_ := wrap (σ.gov.count_ - 1) } } t
        Pc.holding)
  | some Pc.acquire_push =>
    some (Sys.goto { σ with gov := { σ.gov with
      waiting_contexts_ := σ.gov.waiting_contexts_ ++ [t] } } t Pc.acquire_block)
  | some Pc.acquire_block =>
    if t ∈ σ.unblocked then
      some (Sys.goto { σ with unblocked := σ.unblocked.erase t } t Pc.holding)
    else some (σ.goto t Pc.parked)
  | some Pc.try_enter =>
    if σ.gov.is_running_ = 0 then some (σ.goto t Pc.try_failed)
    else some (σ.goto t Pc.try_decrement)
  | some Pc.try_decrement =>
    if wrap (σ.gov.count_ - 1) < 0 then
      some (Sys.goto { σ with gov := { σ.gov with count_ := wrap (σ.gov.count_ - 1) } } t
        Pc.try_undo)
    else
      some (Sys.goto { σ with gov := { σ.gov with count_ := wrap (σ.gov.count_ - 1) } } t
        Pc.holding)
  | some Pc.try_undo =>
    some (Sys.goto { σ with gov := { σ.gov with count_ := wrap (σ.gov.count_ + 1) } } t
      Pc.try_failed)
  | some (Pc.release_enter holder) =>
    if σ.threads.get? holder = some Pc.holding then
      if σ.gov.is_running_ = 0 then
        some (Sys.goto (σ.goto holder Pc.dropped) t Pc.release_done)
      else some (Sys.goto (σ.goto holder Pc.dropped) t Pc.release_increment)
    else none
  | some Pc.release_increment =>
    if wrap (σ.gov.count_ + 1) ≤ 0 then
      some (Sys.goto { σ with gov := { σ.gov with count_ := wrap (σ.gov.count_ + 1) } } t
        Pc.release_pop)
    else
      some (Sys.goto { σ with gov := { σ.gov with count_ := wrap (σ.gov.count_ + 1) } } t
        Pc.release_done)
  | some Pc.release_pop =>
    match try_pop σ.gov.waiting_contexts_ with
    | none => some σ
    | some (waiting, rest) =>
      some (Sys.goto (Sys.unblock { σ with gov := { σ.gov with
        waiting_contexts_ := rest } } waiting) t Pc.release_done)
  | some Pc.cancel_enter =>
    some (Sys.goto { σ with gov := { σ.gov with is_running_ := 0 } } t Pc.cancel_loop)
  | some Pc.cancel_loop =>
    match try_pop σ.gov.waiting_contexts_ with
    | none => some (σ.goto t Pc.cancel_done)
    | some (waiting, rest) =>
      some (Sys.unblock { σ with gov := { σ.gov with waiting_contexts_ := rest } } waiting)
  | some Pc.parked => none
  | some Pc.holding => none
  | some Pc.dropped => none
  | some Pc.try_failed => none
  | some Pc.release_done => none
  | some Pc.cancel_done => none

/-- Run the threads in the order given by `schedule`. -/
def Sys.exec (σ : Sys) : List Nat → Option Sys
  | [] => some σ
  | t :: schedule =>
    match σ.step t with
    | none => none
    | some σ1 => Sys.exec σ1 schedule

/-- The number of live tickets: the threads that hold one. -/
def Sys.live (σ : Sys) : Nat :=
  σ.threads.count Pc.holding

/-- Some thread is an acquirer that is parked or on its way to park: it has
decremented `count_` below zero and will push, or has pushed, its context. -/
def Sys.has_parking_acquirer (σ : Sys) : Bool :=
  σ.threads.any fun pc =>
    pc = Pc.acquire_push ∨ pc = Pc.acquire_block ∨ pc = Pc.parked

end governor

/-! ### `filter` (modules/ffmpeg/util/filter.cpp) -/

namespace filter

/-- The part of `struct filter::implementation` that `try_pop` and `size`
use: `std::deque<std::shared_ptr<AVFrame>> buffer_`, front first. `Frame`
stands for `std::shared_ptr<AVFrame>`. -/
structure implementation (Frame : Type) where
  buffer_ : List Frame
deriving DecidableEq, Repr

/-- `bool implementation::try_pop(std::shared_ptr<AVFrame>& frame)`: the
return value, the caller's `frame` after the call, and the state. -/
def implementation.try_pop {Frame : Type} (s : implementation Frame) (frame : Frame) :
    Bool × Frame × implementation Frame :=
  match s.buffer_ with
  | [] => (false, frame, s)
  | front :: rest => (true, front, { buffer_ := rest })

end filter

/-- `class filter`, which owns its `implementation` through `impl_`. -/
structure filter (Frame : Type) where
  impl_ : filter.implementation Frame
deriving DecidableEq, Repr

namespace filter

/-- `bool filter::try_pop(std::shared_ptr<AVFrame>& frame)`. -/
def try_pop {Frame : Type} (f : filter Frame) (frame : Frame) :
    Bool × Frame × filter Frame :=
  ((f.impl_.try_pop frame).1, (f.impl_.try_pop frame).2.1,
    { impl_ := (f.impl_.try_pop frame).2.2 })

/-- `size_t filter::size() const`. -/
def size {Frame : Type} (f : filter Frame) : Nat :=
  f.impl_.buffer_.length

/-- Call `try_pop` `n` times in a row, each call on the `frame` variable the
call before left. Returns the return value and the value of `frame` after
each call, the final `frame`, and the final filter. -/
def try_pops {Frame : Type} (f : filter Frame) (frame : Frame) :
    Nat → List (Bool × Frame) × Frame × filter Frame
  | 0 => ([], frame, f)
  | n + 1 =>
    (((f.try_pop frame).1, (f.try_pop frame).2.1) ::
        (try_pops (f.try_pop frame).2.2 (f.try_pop frame).2.1 n).1,
      (try_pops (f.try_pop frame).2.2 (f.try_pop frame).2.1 n).2)

end filter

namespace governor


/-- Ledger of the 32-bit counter for configured capacity `N`: `count_` is an
`int` and equals `N - live - parked` modulo `2^32`, at most `MAX_PARKED`
contexts are parked, and at most `N` tickets are live. -/
def Ledger (N : Nat) (w : World) : Prop :=
  (w.gov.count_ - ((N : Int) - (w.live.length : Int) -
      (w.gov.waiting_contexts_.length : Int))) % 4294967296 = 0 ∧
  -2147483648 ≤ w.gov.count_ ∧ w.gov.count_ ≤ 2147483647 ∧
  w.gov.waiting_contexts_.length ≤ MAX_PARKED ∧
  w.live.length ≤ N

instance (N : Nat) (w : World) : Decidable (Ledger N w) := by
  unfold Ledger
  exact inferInstance

/-! ## Basic facts about the member functions -/

theorem cancel_loop_eq (q : List Context) :
    impl.cancel_loop q = ([], q.map Event.Unblock) := by
  induction q with
  | nil => rfl
  | cons w rest ih => simp [impl.cancel_loop, ih]

theorem cancel_eq (s : impl) :
    s.cancel = ({ s with is_running_ := 0, waiting_contexts_ := [] },
      s.waiting_contexts_.map Event.Unblock) := by
  simp [impl.cancel, cancel_loop_eq]

theorem woken_map_Unblock (q : List Context) : woken (q.map Event.Unblock) = q := by
  induction q with
  | nil => rfl
  | cons w rest ih => simp [woken, ih]

theorem to_int_le (n : Nat) : to_int n ≤ (n : Int) := by
  unfold to_int
  have h := Nat.mod_le n 4294967296
  split <;> omega

theorem to_int_small (n : Nat) (h : (n : Int) ≤ INT_MAX) : to_int n = (n : Int) := by
  unfold INT_MAX at h
  unfold to_int
  have h1 : n % 4294967296 = n := Nat.mod_eq_of_lt (by omega)
  rw [h1]
  split
  · rfl
  · omega

theorem to_int_range (n : Nat) : INT_MIN ≤ to_int n ∧ to_int n ≤ INT_MAX := by
  unfold to_int INT_MIN INT_MAX
  have h := Nat.mod_lt n (show 0 < 4294967296 by decide)
  split <;> constructor <;> omega

theorem to_int_congr (n : Nat) : (to_int n - (n : Int)) % 4294967296 = 0 := by
  unfold to_int
  split <;> omega

theorem wrap_of_range (z : Int) (h1 : -2147483648 ≤ z) (h2 : z ≤ 2147483647) :
    wrap z = z := by
  unfold wrap
  omega

theorem wrap_range (z : Int) : -2147483648 ≤ wrap z ∧ wrap z ≤ 2147483647 := by
  unfold wrap
  omega

/-! ## Runs of atomic steps -/

theorem run_cons_some (w w1 : World) (op : Op) (ops : List Op) (evs : List (List Event))
    (h : w.run (op :: ops) = some (w1, evs)) :
    ∃ w2 ev evs2, w.step op = some (w2, ev) ∧ w2.run ops = some (w1, evs2) ∧
      evs = ev :: evs2 := by
  simp only [World.run] at h
  cases hs : w.step op with
  | none => simp [hs] at h
  | some p =>
    obtain ⟨w2, ev⟩ := p
    simp only [hs] at h
    cases hr : w2.run ops with
    | none => simp [hr] at h
    | some q =>
      obtain ⟨w3, evs3⟩ := q
      simp [hr] at h
      exact ⟨w2, ev, evs3, rfl, by rw [← h.1]; exact hr, h.2.symm⟩

theorem run_cons_eq (w w1 : World) (op : Op) (ops : List Op) (ev : List Event)
    (hs : w.step op = some (w1, ev)) :
    w.run (op :: ops) = (w1.run ops).map fun p => (p.1, ev :: p.2) := by
  simp only [World.run, hs]
  cases w1.run ops with
  | none => rfl
  | some p => rfl

theorem run_append_some (ops : List Op) :
    ∀ (rest : List Op) (w w1 : World) (evs : List (List Event)),
    w.run (ops ++ rest) = some (w1, evs) →
    ∃ w2 evs2, w.run ops = some (w2, evs2) := by
  induction ops with
  | nil => intro rest w w1 evs _; exact ⟨w, [], rfl⟩
  | cons op ops ih =>
    intro rest w w1 evs h
    obtain ⟨w2, ev, evs2, hs, hr, -⟩ := run_cons_some w w1 op (ops ++ rest) evs h
    obtain ⟨w3, evs3, h3⟩ := ih rest w2 w1 evs2 hr
    exact ⟨w3, ev :: evs3, by simp [World.run, hs, h3]⟩

/-- Once `is_running_` is 0, a step leaves it 0. -/
theorem step_stopped (w w1 : World) (op : Op) (ev : List Event)
    (hstop : w.gov.is_running_ = 0) (h : w.step op = some (w1, ev)) :
    w1.gov.is_running_ = 0 := by
  cases op with
  | acquire c =>
    simp [World.step, impl.call, impl.acquire_ticket, hstop] at h
    rw [← h.2.1]; exact hstop
  | try_acquire c =>
    simp [World.step, impl.call, impl.try_acquire_ticket, hstop] at h
    rw [← h.1]; exact hstop
  | release c =>
    simp [World.step, impl.call, impl.release_ticket, hstop] at h
    rw [← h.2.1]; exact hstop
  | cancel =>
    simp [World.step, impl.call, cancel_eq] at h
    rw [← h.1]

theorem run_stopped (ops : List Op) : ∀ (w w1 : World) (evs : List (List Event)),
    w.gov.is_running_ = 0 → w.run ops = some (w1, evs) → w1.gov.is_running_ = 0 := by
  induction ops with
  | nil =>
    intro w w1 evs hstop h
    simp [World.run] at h
    rw [← h.1]; exact hstop
  | cons op ops ih =>
    intro w w1 evs hstop h
    obtain ⟨w2, ev, evs2, hs, hr, -⟩ := run_cons_some w w1 op ops evs h
    exact ih w2 w1 evs2 (step_stopped w w2 op ev hstop hs) hr

/-- Only `cancel` writes `is_running_`. -/
theorem step_keeps_running (w w1 : World) (op : Op) (ev : List Event)
    (hop : op ≠ Op.cancel) (h : w.step op = some (w1, ev)) :
    w1.gov.is_running_ = w.gov.is_running_ := by
  cases op with
  | acquire c =>
    simp [World.step, impl.call] at h
    obtain ⟨-, rfl, -⟩ := h
    simp only [impl.acquire_ticket]
    split
    · rfl
    · split <;> rfl
  | try_acquire c =>
    simp [World.step, impl.call] at h
    obtain ⟨rfl, -⟩ := h
    simp only [impl.try_acquire_ticket]
    split
    · rfl
    · split <;> rfl
  | release c =>
    simp only [World.step, impl.call] at h
    split at h
    · cases hr : w.gov.release_ticket with
      | none => simp [hr] at h
      | some r =>
        simp [hr] at h
        obtain ⟨rfl, -⟩ := h
        simp only [impl.release_ticket] at hr
        split at hr
        · simp at hr; rw [← hr]
        · split at hr
          · cases hq : try_pop w.gov.waiting_contexts_ with
            | none => simp [hq] at hr
            | some p => simp [hq] at hr; rw [← hr]
          · simp at hr; rw [← hr]
    · simp at h
  | cancel => exact absurd rfl hop

theorem run_keeps_running (ops : List Op) :
    ∀ (w w1 : World) (evs : List (List Event)), Op.cancel ∉ ops →
    w.run ops = some (w1, evs) → w1.gov.is_running_ = w.gov.is_running_ := by
  induction ops with
  | nil =>
    intro w w1 evs _ h
    simp [World.run] at h
    rw [← h.1]
  | cons op ops ih =>
    intro w w1 evs hno h
    obtain ⟨w2, ev, evs2, hs, hr, -⟩ := run_cons_some w w1 op ops evs h
    have h1 : op ≠ Op.cancel := fun e => hno (by simp [e])
    have h2 : Op.cancel ∉ ops := fun e => hno (by simp [e])
    rw [ih w2 w1 evs2 h2 hr, step_keeps_running w w2 op ev h1 hs]

/-! ## The member functions on an `int` counter -/

theorem acquire_ticket_grant (s : impl) (c : Context) (hrun : s.is_running_ ≠ 0)
    (h1 : 1 ≤ s.count_) (h2 : s.count_ ≤ 2147483647) :
    s.acquire_ticket c = (⟨s.count_ - 1, s.is_running_, s.waiting_contexts_⟩, []) := by
  have hw : wrap (s.count_ - 1) = s.count_ - 1 := wrap_of_range _ (by omega) (by omega)
  have h3 : ¬ (s.count_ - 1 < 0) := by omega
  have h4 : ¬ (s.count_ < 1) := by omega
  simp only [impl.acquire_ticket, hw]
  simp [hrun, h3, h4]

theorem acquire_ticket_park (s : impl) (c : Context) (hrun : s.is_running_ ≠ 0)
    (h1 : -2147483648 < s.count_) (h2 : s.count_ ≤ 0) :
    s.acquire_ticket c =
      (⟨s.count_ - 1, s.is_running_, s.waiting_contexts_ ++ [c]⟩,
        [Event.Yield, Event.Block c]) := by
  have hw : wrap (s.count_ - 1) = s.count_ - 1 := wrap_of_range _ (by omega) (by omega)
  have h3 : s.count_ - 1 < 0 := by omega
  have h4 : s.count_ < 1 := by omega
  simp only [impl.acquire_ticket, hw]
  simp [hrun, h3, h4]

theorem try_acquire_ticket_grant (s : impl) (hrun : s.is_running_ ≠ 0)
    (h1 : 1 ≤ s.count_) (h2 : s.count_ ≤ 2147483647) :
    s.try_acquire_ticket =
      (true, ⟨s.count_ - 1, s.is_running_, s.waiting_contexts_⟩, []) := by
  have hw : wrap (s.count_ - 1) = s.count_ - 1 := wrap_of_range _ (by omega) (by omega)
  have h3 : ¬ (s.count_ - 1 < 0) := by omega
  have h4 : ¬ (s.count_ < 1) := by omega
  simp only [impl.try_acquire_ticket, hw]
  simp [hrun, h3, h4]

theorem try_acquire_ticket_fail (s : impl) (hrun : s.is_running_ ≠ 0)
    (h1 : -2147483648 < s.count_) (h2 : s.count_ ≤ 0) :
    s.try_acquire_ticket = (false, s, [Event.Yield]) := by
  have hw : wrap (s.count_ - 1) = s.count_ - 1 := wrap_of_range _ (by omega) (by omega)
  have hw2 : wrap (s.count_ - 1 + 1) = s.count_ := by
    rw [wrap_of_range _ (by omega) (by omega)]; omega
  have h3 : s.count_ - 1 < 0 := by omega
  have h4 : s.count_ < 1 := by omega
  simp only [impl.try_acquire_ticket, hw, hw2]
  simp [hrun, h3, h4]

theorem release_ticket_plain (s : impl) (hrun : s.is_running_ ≠ 0)
    (h1 : 0 ≤ s.count_) (h2 : s.count_ < 2147483647) :
    s.release_ticket =
      some (⟨s.count_ + 1, s.is_running_, s.waiting_contexts_⟩, []) := by
  have hw : wrap (s.count_ + 1) = s.count_ + 1 := wrap_of_range _ (by omega) (by omega)
  have h3 : ¬ (s.count_ + 1 ≤ 0) := by omega
  simp only [impl.release_ticket, hw]
  simp [hrun, h3]

theorem release_ticket_pop (s : impl) (x : Context) (rest : List Context)
    (hrun : s.is_running_ ≠ 0) (h1 : -2147483648 ≤ s.count_) (h2 : s.count_ < 0)
    (hq : s.waiting_contexts_ = x :: rest) :
    s.release_ticket =
      some (⟨s.count_ + 1, s.is_running_, rest⟩, [Event.Unblock x]) := by
  have hw : wrap (s.count_ + 1) = s.count_ + 1 := wrap_of_range _ (by omega) (by omega)
  have h3 : s.count_ + 1 ≤ 0 := by omega
  simp only [impl.release_ticket, hw]
  simp [hrun, h3, hq, try_pop]

theorem release_ticket_spin (s : impl) (hrun : s.is_running_ ≠ 0)
    (h1 : wrap (s.count_ + 1) ≤ 0) (hq : s.waiting_contexts_ = []) :
    s.release_ticket = none := by
  simp only [impl.release_ticket]
  simp [hrun, h1, hq, try_pop]

theorem step_acquire_grant (n : Int) (q live : List Context) (c : Context)
    (h1 : 1 ≤ n) (h2 : n ≤ 2147483647) (hq : q.length < MAX_PARKED) :
    World.step ⟨⟨n, 1, q⟩, live⟩ (Op.acquire c) =
      some (⟨⟨n - 1, 1, q⟩, live ++ [c]⟩, []) := by
  have e := acquire_ticket_grant ⟨n, 1, q⟩ c (by simp) h1 h2
  simp only [World.step, impl.call, hq, if_true, e, World.live_after]
  simp

theorem step_acquire_park (n : Int) (q live : List Context) (c : Context)
    (h1 : -2147483648 < n) (h2 : n ≤ 0) (hq : q.length < MAX_PARKED) :
    World.step ⟨⟨n, 1, q⟩, live⟩ (Op.acquire c) =
      some (⟨⟨n - 1, 1, q ++ [c]⟩, live⟩, [Event.Yield, Event.Block c]) := by
  have e := acquire_ticket_park ⟨n, 1, q⟩ c (by simp) h1 h2
  simp only [World.step, impl.call, hq, if_true, e, World.live_after]
  simp

theorem step_try_acquire_fail (n : Int) (q live : List Context) (c : Context)
    (h1 : -2147483648 < n) (h2 : n ≤ 0) :
    World.step ⟨⟨n, 1, q⟩, live⟩ (Op.try_acquire c) =
      some (⟨⟨n, 1, q⟩, live⟩, [Event.Yield]) := by
  have e := try_acquire_ticket_fail ⟨n, 1, q⟩ (by simp) h1 h2
  simp only [World.step, impl.call, e, World.live_after]
  simp

theorem step_release_pop (n : Int) (x : Context) (rest live : List Context)
    (c : Context) (h1 : -2147483648 ≤ n) (h2 : n < 0) (hc : c ∈ live) :
    World.step ⟨⟨n, 1, x :: rest⟩, live⟩ (Op.release c) =
      some (⟨⟨n + 1, 1, rest⟩, live.erase c ++ [x]⟩, [Event.Unblock x]) := by
  have e := release_ticket_pop ⟨n, 1, x :: rest⟩ x rest (by simp) h1 h2 rfl
  simp only [World.step, impl.call, hc, if_true, e, World.live_after, woken]

/-! ## Invariants of the running state -/

theorem wrap_congr (z : Int) : (wrap z - z) % 4294967296 = 0 := by
  unfold wrap
  omega

/-- One step between two running states keeps the ledger. -/
theorem step_ledger (N : Nat) (w w1 : World) (op : Op) (ev : List Event)
    (hrun : w.gov.is_running_ ≠ 0) (h : w.step op = some (w1, ev))
    (hrun1 : w1.gov.is_running_ ≠ 0) (hl : Ledger N w) : Ledger N w1 := by
  obtain ⟨g, live⟩ := w
  obtain ⟨count, running, queue⟩ := g
  simp only at hrun
  obtain ⟨hcong, hlo, hhi, hq, hlive⟩ := hl
  simp only [MAX_PARKED] at hq
  simp only at hcong hlo hhi hq hlive
  cases op with
  | acquire c =>
    have hr := wrap_range (count - 1)
    have hg := wrap_congr (count - 1)
    simp only [World.step, impl.call, impl.acquire_ticket, MAX_PARKED] at h
    generalize wrap (count - 1) = c1 at h hr hg
    by_cases hguard : queue.length < 2147483647
    · by_cases hc : c1 < 0
      · simp [hrun, hguard, hc, World.live_after] at h
        obtain ⟨rfl, -⟩ := h
        simp only [Ledger, MAX_PARKED, List.length_append, List.length_singleton]
        push_cast
        refine ⟨by omega, hr.1, hr.2, by omega, hlive⟩
      · by_cases hy : count < 1
        · simp [hrun, hguard, hc, hy, World.live_after] at h
          obtain ⟨rfl, -⟩ := h
          simp only [Ledger, MAX_PARKED, List.length_append, List.length_singleton]
          push_cast
          refine ⟨by omega, hr.1, hr.2, by omega, by omega⟩
        · simp [hrun, hguard, hc, hy, World.live_after] at h
          obtain ⟨rfl, -⟩ := h
          simp only [Ledger, MAX_PARKED, List.length_append, List.length_singleton]
          push_cast
          refine ⟨by omega, hr.1, hr.2, by omega, by omega⟩
    · simp [hguard] at h
  | try_acquire c =>
    have hr := wrap_range (count - 1)
    have hg := wrap_congr (count - 1)
    simp only [World.step, impl.call, impl.try_acquire_ticket] at h
    generalize wrap (count - 1) = c1 at h hr hg
    by_cases hc : c1 < 0
    · have hr2 := wrap_range (c1 + 1)
      have hg2 := wrap_congr (c1 + 1)
      generalize wrap (c1 + 1) = c2 at h hr2 hg2
      simp [hrun, hc, World.live_after] at h
      obtain ⟨rfl, -⟩ := h
      simp only [Ledger, MAX_PARKED]
      refine ⟨by omega, hr2.1, hr2.2, by omega, hlive⟩
    · simp [hrun, hc, World.live_after] at h
      obtain ⟨rfl, -⟩ := h
      simp only [Ledger, MAX_PARKED, List.length_append, List.length_singleton]
      push_cast
      refine ⟨by omega, hr.1, hr.2, by omega, by omega⟩
  | release c =>
    have hr := wrap_range (count + 1)
    have hg := wrap_congr (count + 1)
    by_cases hmem : c ∈ live
    · have hlen : (live.erase c).length = live.length - 1 := List.length_erase_of_mem hmem
      have hpos : 0 < live.length := List.length_pos_of_mem hmem
      simp only [World.step, impl.call, impl.release_ticket] at h
      generalize wrap (count + 1) = c1 at h hr hg
      by_cases hc : c1 ≤ 0
      · cases queue with
        | nil => simp [hrun, hc, try_pop, hmem] at h
        | cons x rest =>
          simp [hrun, hc, try_pop, hmem, World.live_after, woken] at h
          obtain ⟨rfl, -⟩ := h
          simp only [List.length_cons] at hq hcong
          push_cast at hcong
          simp only [Ledger, MAX_PARKED, List.length_append, List.length_singleton, hlen]
          refine ⟨by omega, hr.1, hr.2, by omega, by omega⟩
      · simp [hrun, hc, hmem, World.live_after, woken] at h
        obtain ⟨rfl, -⟩ := h
        simp only [Ledger, MAX_PARKED, hlen]
        refine ⟨by omega, hr.1, hr.2, by omega, by omega⟩
    · simp [World.step, hmem] at h
  | cancel =>
    simp [World.step, impl.call, cancel_eq] at h
    obtain ⟨rfl, -⟩ := h
    simp at hrun1

/-- For a capacity that fits an `int`, one step between two running states
keeps the ticket balance, the queue balance and the bound on the queue. -/
theorem step_running (cap : Int) (hcap0 : 0 ≤ cap) (hcap : cap ≤ 2147483647)
    (w w1 : World) (op : Op) (ev : List Event)
    (hrun : w.gov.is_running_ ≠ 0) (h : w.step op = some (w1, ev))
    (hrun1 : w1.gov.is_running_ ≠ 0)
    (hb : Balanced cap w) (hp : Parked w)
    (hq : w.gov.waiting_contexts_.length ≤ MAX_PARKED) :
    Balanced cap w1 ∧ Parked w1 ∧ w1.gov.waiting_contexts_.length ≤ MAX_PARKED := by
  obtain ⟨g, live⟩ := w
  obtain ⟨count, running, queue⟩ := g
  simp only at hrun
  obtain ⟨b1, b2⟩ := hb
  obtain ⟨p1, p2⟩ := hp
  simp only [MAX_PARKED] at hq
  simp only at b1 b2 p1 p2 hq
  have hlo : -2147483647 ≤ count := by
    by_cases h0 : count < 0
    · have := p2 h0; omega
    · omega
  have hhi : count ≤ cap := by
    by_cases h0 : 0 ≤ count
    · have := b1 h0; omega
    · omega
  cases op with
  | acquire c =>
    have hw : wrap (count - 1) = count - 1 := wrap_of_range _ (by omega) (by omega)
    simp only [World.step, impl.call, impl.acquire_ticket, MAX_PARKED, hw] at h
    by_cases hguard : queue.length < 2147483647
    · by_cases hc : 1 ≤ count
      · have h1 : ¬ (count - 1 < 0) := by omega
        have h2 : ¬ (count < 1) := by omega
        simp [hrun, hguard, h1, h2, World.live_after] at h
        obtain ⟨rfl, -⟩ := h
        have hq0 := p1 (by omega)
        have := b1 (by omega)
        simp only [Balanced, Parked, MAX_PARKED, List.length_append, List.length_singleton]
        push_cast
        refine ⟨⟨fun _ => by omega, fun _ => by omega⟩, ⟨fun _ => hq0, fun _ => by omega⟩,
          by omega⟩
      · have h1 : count - 1 < 0 := by omega
        have h2 : count < 1 := by omega
        simp [hrun, hguard, h1, h2, World.live_after] at h
        obtain ⟨rfl, -⟩ := h
        simp only [Balanced, Parked, MAX_PARKED, List.length_append, List.length_singleton]
        push_cast
        refine ⟨⟨fun _ => by omega, fun _ => ?_⟩, ⟨fun _ => by omega, fun _ => ?_⟩, by omega⟩
        · by_cases h0 : count < 0
          · exact b2 h0
          · have := b1 (by omega); omega
        · by_cases h0 : count < 0
          · have := p2 h0; omega
          · have := p1 (by omega); simp [this]; omega
    · simp [hguard] at h
  | try_acquire c =>
    have hw : wrap (count - 1) = count - 1 := wrap_of_range _ (by omega) (by omega)
    have hw2 : wrap (count - 1 + 1) = count := by
      rw [wrap_of_range _ (by omega) (by omega)]; omega
    simp only [World.step, impl.call, impl.try_acquire_ticket, hw, hw2] at h
    by_cases hc : 1 ≤ count
    · have h1 : ¬ (count - 1 < 0) := by omega
      have h2 : ¬ (count < 1) := by omega
      simp [hrun, h1, h2, World.live_after] at h
      obtain ⟨rfl, -⟩ := h
      have hq0 := p1 (by omega)
      have := b1 (by omega)
      simp only [Balanced, Parked, MAX_PARKED, List.length_append, List.length_singleton]
      push_cast
      refine ⟨⟨fun _ => by omega, fun _ => by omega⟩, ⟨fun _ => hq0, fun _ => by omega⟩,
        by omega⟩
    · have h1 : count - 1 < 0 := by omega
      have h2 : count < 1 := by omega
      simp [hrun, h1, h2, World.live_after] at h
      obtain ⟨rfl, -⟩ := h
      exact ⟨⟨b1, b2⟩, ⟨p1, p2⟩, hq⟩
  | release c =>
    by_cases hmem : c ∈ live
    · have hlen : (live.erase c).length = live.length - 1 := List.length_erase_of_mem hmem
      have hpos : 0 < live.length := List.length_pos_of_mem hmem
      have hlt : count < 2147483647 := by
        by_cases h0 : 0 ≤ count
        · have := b1 h0; omega
        · omega
      have hw : wrap (count + 1) = count + 1 := wrap_of_range _ (by omega) (by omega)
      simp only [World.step, impl.call, impl.release_ticket, hw] at h
      by_cases hc : count + 1 ≤ 0
      · cases queue with
        | nil => simp [hrun, hc, try_pop, hmem] at h
        | cons x rest =>
          simp [hrun, hc, try_pop, hmem, World.live_after, woken] at h
          obtain ⟨rfl, -⟩ := h
          have hb2 := b2 (by omega)
          have hp2 := p2 (by omega)
          simp only [List.length_cons] at hq hp2
          push_cast at hp2
          simp only [Balanced, Parked, MAX_PARKED, List.length_append, List.length_singleton,
            hlen]
          refine ⟨⟨fun _ => by omega, fun _ => by omega⟩, ⟨fun _ => ?_, fun _ => by omega⟩,
            by omega⟩
          have hr : rest.length = 0 := by omega
          exact List.length_eq_zero.mp hr
      · simp [hrun, hc, hmem, World.live_after, woken] at h
        obtain ⟨rfl, -⟩ := h
        have hb1 := b1 (by omega)
        simp only [Balanced, Parked, MAX_PARKED, hlen]
        refine ⟨⟨fun _ => by omega, fun _ => by omega⟩,
          ⟨fun _ => p1 (by omega), fun _ => by omega⟩, hq⟩
    · simp [World.step, hmem] at h
  | cancel =>
    simp [World.step, impl.call, cancel_eq] at h
    obtain ⟨rfl, -⟩ := h
    simp at hrun1

theorem run_running (cap : Int) (hcap0 : 0 ≤ cap) (hcap : cap ≤ 2147483647)
    (ops : List Op) :
    ∀ (w w1 : World) (evs : List (List Event)),
    w.run ops = some (w1, evs) → w1.gov.is_running_ ≠ 0 →
    Balanced cap w → Parked w → w.gov.waiting_contexts_.length ≤ MAX_PARKED →
    w.gov.is_running_ ≠ 0 ∧ Balanced cap w1 ∧ Parked w1 ∧
      w1.gov.waiting_contexts_.length ≤ MAX_PARKED := by
  induction ops with
  | nil =>
    intro w w1 evs h hrun1 hb hp hq
    simp [World.run] at h
    obtain ⟨rfl, -⟩ := h
    exact ⟨hrun1, hb, hp, hq⟩
  | cons op ops ih =>
    intro w w1 evs h hrun1 hb hp hq
    obtain ⟨w2, ev, evs2, hs, hr, -⟩ := run_cons_some w w1 op ops evs h
    have hrun2 : w2.gov.is_running_ ≠ 0 :=
      fun h0 => hrun1 (run_stopped ops w2 w1 evs2 h0 hr)
    have hrun : w.gov.is_running_ ≠ 0 := fun h0 => hrun2 (step_stopped w w2 op ev h0 hs)
    obtain ⟨hb2, hp2, hq2⟩ := step_running cap hcap0 hcap w w2 op ev hrun hs hrun2 hb hp hq
    obtain ⟨-, r⟩ := ih w2 w1 evs2 hr hrun1 hb2 hp2 hq2
    exact ⟨hrun, r⟩

theorem run_ledger (N : Nat) (ops : List Op) :
    ∀ (w w1 : World) (evs : List (List Event)),
    w.run ops = some (w1, evs) → w1.gov.is_running_ ≠ 0 → Ledger N w → Ledger N w1 := by
  induction ops with
  | nil =>
    intro w w1 evs h _ hl
    simp [World.run] at h
    obtain ⟨rfl, -⟩ := h
    exact hl
  | cons op ops ih =>
    intro w w1 evs h hrun1 hl
    obtain ⟨w2, ev, evs2, hs, hr, -⟩ := run_cons_some w w1 op ops evs h
    have hrun2 : w2.gov.is_running_ ≠ 0 :=
      fun h0 => hrun1 (run_stopped ops w2 w1 evs2 h0 hr)
    have hrun : w.gov.is_running_ ≠ 0 := fun h0 => hrun2 (step_stopped w w2 op ev h0 hs)
    exact ih w2 w1 evs2 hr hrun1 (step_ledger N w w2 op ev hrun hs hrun2 hl)

theorem init_ledger (N : Nat) : Ledger N (World.init N) := by
  have hr := to_int_range N
  have hc := to_int_congr N
  simp only [INT_MIN, INT_MAX] at hr
  refine ⟨?_, hr.1, hr.2, ?_, ?_⟩
  · simp only [World.init, impl.construct, List.length_nil]
    push_cast
    omega
  · simp [World.init, impl.construct]
  · simp [World.init]

theorem init_sound (N : Nat) (hN : (N : Int) ≤ INT_MAX) :
    Balanced (N : Int) (World.init N) ∧ Parked (World.init N) ∧
      (World.init N).gov.waiting_contexts_.length ≤ MAX_PARKED := by
  have h0 : (0 : Int) ≤ (N : Int) := Int.ofNat_nonneg N
  refine ⟨?_, ⟨fun _ => rfl, fun h => ?_⟩, by simp [World.init, impl.construct]⟩
  · simp [Balanced, World.init, impl.construct, to_int_small N hN]
  · simp only [World.init, impl.construct, to_int_small N hN] at h
    omega

/-! ## Capacity and accounting -/

/-- Claim C3, amended: a failed try_acquire is a no-op. In every state with
`is_running_` true and `INT_MIN < count_ <= 0`, `try_acquire` returns false,
the state after the call equals the state before it (`count_`,
`waiting_contexts_` and `is_running_` unchanged), the caller's ticket vector
is unchanged, and the caller is never blocked. -/
theorem try_acquire_exhausted_noop (s : impl) (self : ImplPtr) (ticket : ticket_t)
    (hrun : s.is_running_ ≠ 0) (hcount : s.count_ ≤ 0) (hmin : INT_MIN < s.count_) :
    (s.try_acquire self ticket).1 = false ∧
    (s.try_acquire self ticket).2.2.1 = s ∧
    (s.try_acquire self ticket).2.1 = ticket ∧
    (∀ c, Event.Block c ∉ (s.try_acquire self ticket).2.2.2) ∧
    s.try_acquire_ticket.1 = false ∧ s.try_acquire_ticket.2.1 = s := by
  simp only [INT_MIN] at hmin
  have h3 := try_acquire_ticket_fail s hrun hmin hcount
  simp [impl.try_acquire, h3]

/-- Capacity exhausted with two contexts parked. -/
theorem try_acquire_exhausted_noop_witness :
    (impl.try_acquire ⟨-2, 1, [4, 5]⟩ 9 [⟨8⟩]).1 = false ∧
    (impl.try_acquire ⟨-2, 1, [4, 5]⟩ 9 [⟨8⟩]).2.2.1 = ⟨-2, 1, [4, 5]⟩ ∧
    (impl.try_acquire ⟨-2, 1, [4, 5]⟩ 9 [⟨8⟩]).2.1 = [⟨8⟩] ∧
    (∀ c, Event.Block c ∉ (impl.try_acquire ⟨-2, 1, [4, 5]⟩ 9 [⟨8⟩]).2.2.2) ∧
    (impl.try_acquire_ticket ⟨-2, 1, [4, 5]⟩).1 = false ∧
    (impl.try_acquire_ticket ⟨-2, 1, [4, 5]⟩).2.1 = ⟨-2, 1, [4, 5]⟩ :=
  try_acquire_exhausted_noop ⟨-2, 1, [4, 5]⟩ 9 [⟨8⟩] (by decide) (by decide) (by decide)

/-- The governor built by `governor(2147483648)` is running with
`count_ = INT_MIN <= 0`. Its `--count_` wraps to `INT_MAX`, so `try_acquire`
returns true, appends a capsule and leaves `count_ = 2147483647`. -/
theorem try_acquire_exhausted_counterexample :
    impl.construct 2147483648 = ⟨-2147483648, 1, []⟩ ∧
    (impl.construct 2147483648).is_running_ ≠ 0 ∧
    (impl.construct 2147483648).count_ ≤ 0 ∧
    impl.try_acquire (impl.construct 2147483648) 9 [] =
      (true, [⟨9⟩], ⟨2147483647, 1, []⟩, [Event.Yield]) := by
  refine ⟨by decide, by decide, by decide, by decide⟩

/-- Claim C4, amended: try_acquire succeeds exactly when there is capacity.
In every state whose `count_` is an `int` other than `INT_MIN`,
`try_acquire_ticket` (and so `try_acquire`) returns true if and only if
`is_running_` is true and `count_ >= 1`; when it returns true, `count_` has
gone down by exactly 1, `waiting_contexts_` and `is_running_` are unchanged,
and `acquire_ticket` from the same state reaches the same state without any
runtime call, so without blocking. -/
theorem try_acquire_iff_capacity (s : impl) (self : ImplPtr) (ticket : ticket_t)
    (hmin : INT_MIN < s.count_) (hmax : s.count_ ≤ INT_MAX) :
    (s.try_acquire_ticket.1 = true ↔ (s.is_running_ ≠ 0 ∧ 1 ≤ s.count_)) ∧
    ((s.try_acquire self ticket).1 = true ↔ (s.is_running_ ≠ 0 ∧ 1 ≤ s.count_)) ∧
    (s.try_acquire_ticket.1 = true →
      s.try_acquire_ticket.2.1.count_ = s.count_ - 1 ∧
      s.try_acquire_ticket.2.1.waiting_contexts_ = s.waiting_contexts_ ∧
      s.try_acquire_ticket.2.1.is_running_ = s.is_running_ ∧
      (s.try_acquire self ticket).2.2.1 = s.try_acquire_ticket.2.1 ∧
      ∀ c, s.acquire_ticket c = (s.try_acquire_ticket.2.1, [])) := by
  simp only [INT_MIN] at hmin
  simp only [INT_MAX] at hmax
  by_cases hrun : s.is_running_ = 0
  · simp [impl.try_acquire, impl.try_acquire_ticket, hrun]
  · by_cases hc : 1 ≤ s.count_
    · have h1 := try_acquire_ticket_grant s hrun hc hmax
      have h2 : ∀ c, s.acquire_ticket c = _ := fun c => acquire_ticket_grant s c hrun hc hmax
      simp [impl.try_acquire, h1, h2, hrun, hc]
    · have h1 := try_acquire_ticket_fail s hrun hmin (by omega)
      simp [impl.try_acquire, h1, hrun, hc]

/-- Two free units: try_acquire succeeds and leaves one. -/
theorem try_acquire_iff_capacity_witness :
    (impl.try_acquire_ticket ⟨2, 1, []⟩).1 = true ∧
    (impl.try_acquire_ticket ⟨2, 1, []⟩).2.1.count_ = 2 - 1 ∧
    (impl.try_acquire_ticket ⟨2, 1, []⟩).2.1.waiting_contexts_ = [] ∧
    (impl.try_acquire_ticket ⟨2, 1, []⟩).2.1.is_running_ = 1 ∧
    (impl.try_acquire ⟨2, 1, []⟩ 9 []).2.2.1 = (impl.try_acquire_ticket ⟨2, 1, []⟩).2.1 ∧
    ∀ c, impl.acquire_ticket ⟨2, 1, []⟩ c = ((impl.try_acquire_ticket ⟨2, 1, []⟩).2.1, []) :=
  ⟨by decide,
    (try_acquire_iff_capacity ⟨2, 1, []⟩ 9 [] (by decide) (by decide)).2.2 (by decide)⟩

/-- In the state of `governor(2147483648)`, `count_ = INT_MIN` is not `>= 1`,
yet `try_acquire_ticket` returns true, and `count_` afterwards is `INT_MAX`,
not `count_ - 1`. -/
theorem try_acquire_iff_counterexample :
    (impl.construct 2147483648).count_ = -2147483648 ∧
    ¬ (1 ≤ (impl.construct 2147483648).count_) ∧
    (impl.construct 2147483648).try_acquire_ticket =
      (true, ⟨2147483647, 1, []⟩, [Event.Yield]) ∧
    (impl.construct 2147483648).try_acquire_ticket.2.1.count_ ≠
      (impl.construct 2147483648).count_ - 1 := by
  refine ⟨by decide, by decide, by decide, by decide⟩

/-! ## Cancellation -/

theorem calls_stopped (ops : List Op) : ∀ (s : impl), s.is_running_ = 0 →
    s.calls ops = some { s with waiting_contexts_ :=
      if Op.cancel ∈ ops then [] else s.waiting_contexts_ } := by
  induction ops with
  | nil => intro s _; simp [impl.calls]
  | cons op ops ih =>
    intro s hs
    cases op with
    | acquire c =>
      simp [impl.calls, impl.call, impl.acquire_ticket, hs, ih s hs]
    | try_acquire c =>
      simp [impl.calls, impl.call, impl.try_acquire_ticket, hs, ih s hs]
    | release c =>
      simp [impl.calls, impl.call, impl.release_ticket, hs, ih s hs]
    | cancel =>
      have h := ih { s with is_running_ := 0, waiting_contexts_ := [] } rfl
      simp [impl.calls, impl.call, cancel_eq, h, hs]

/-- Claim C5, amended: the cancelled state is absorbing. From every state
with `is_running_` false, every finite sequence of acquire, try_acquire,
release and cancel calls runs to completion and reaches a state `s1` with the
same `count_`, with `is_running_` still false, and with `waiting_contexts_`
as before when the sequence holds no cancel and empty when it holds one.
In every such `s1`, hence before each call of the sequence, `acquire` returns
at once without runtime call and without change of state, `try_acquire`
returns false without change of state or ticket vector, and `release_ticket`
changes nothing. -/
theorem cancelled_is_absorbing (s : impl) (hstop : s.is_running_ = 0) (ops : List Op) :
    ∃ s1, s.calls ops = some s1 ∧
      s1.count_ = s.count_ ∧
      s1.is_running_ = 0 ∧
      s1.waiting_contexts_ = (if Op.cancel ∈ ops then [] else s.waiting_contexts_) ∧
      (∀ c, s1.acquire_ticket c = (s1, [])) ∧
      s1.try_acquire_ticket = (false, s1, []) ∧
      (∀ self ticket, s1.try_acquire self ticket = (false, ticket, s1, [])) ∧
      s1.release_ticket = some (s1, []) := by
  refine ⟨_, calls_stopped ops s hstop, rfl, hstop, rfl, ?_, ?_, ?_, ?_⟩
  · intro c
    simp [impl.acquire_ticket, hstop]
  · simp [impl.try_acquire_ticket, hstop]
  · intro self ticket
    simp [impl.try_acquire, impl.try_acquire_ticket, hstop]
  · simp [impl.release_ticket, hstop]

/-- A cancelled governor with one context still queued, and three calls. -/
theorem cancelled_is_absorbing_witness :
    ∃ s1, impl.calls ⟨-1, 0, [7]⟩ [Op.acquire 3, Op.cancel, Op.release 3] = some s1 ∧
      s1.count_ = -1 ∧
      s1.is_running_ = 0 ∧
      s1.waiting_contexts_ =
        (if Op.cancel ∈ [Op.acquire 3, Op.cancel, Op.release 3] then [] else [7]) ∧
      (∀ c, s1.acquire_ticket c = (s1, [])) ∧
      s1.try_acquire_ticket = (false, s1, []) ∧
      (∀ self ticket, s1.try_acquire self ticket = (false, ticket, s1, [])) ∧
      s1.release_ticket = some (s1, []) :=
  cancelled_is_absorbing ⟨-1, 0, [7]⟩ (by decide) [Op.acquire 3, Op.cancel, Op.release 3]

/-- In the state `count_ = -1`, `is_running_ = false`, queue `[7]`, a cancel
empties the queue: `waiting_contexts_` is not the same after the sequence
`[cancel]` as before it. -/
theorem cancelled_queue_counterexample :
    (⟨-1, 0, [7]⟩ : impl).is_running_ = 0 ∧
    impl.calls ⟨-1, 0, [7]⟩ [Op.cancel] = some ⟨-1, 0, []⟩ ∧
    ¬ (∀ (s s1 : impl) (ops : List Op), s.is_running_ = 0 → s.calls ops = some s1 →
        s1.waiting_contexts_ = s.waiting_contexts_) := by
  refine ⟨by decide, by decide, ?_⟩
  intro h
  have h1 := h ⟨-1, 0, [7]⟩ ⟨-1, 0, []⟩ [Op.cancel] (by decide) (by decide)
  simp at h1

/-- Claim C6: cancel unblocks every waiter. In every state, whatever
`count_` is, `cancel` sets `is_running_` to false, leaves `waiting_contexts_`
empty, leaves `count_` as it was, and its runtime calls are exactly one
`Unblock` per queued context, in queue order. In the scenario of capacity 1
with holder `h` and `a`, `b`, `c` parked in `acquire` (`count_ = -3`), cancel
unblocks `a`, `b`, `c` although no unit was released. -/
theorem cancel_unblocks_every_waiter (s : impl) (h a b c : Context) :
    s.cancel.1.is_running_ = 0 ∧
    s.cancel.1.waiting_contexts_ = [] ∧
    s.cancel.1.count_ = s.count_ ∧
    s.cancel.2 = s.waiting_contexts_.map Event.Unblock ∧
    woken s.cancel.2 = s.waiting_contexts_ ∧
    (World.init 1).run [Op.acquire h, Op.acquire a, Op.acquire b, Op.acquire c] =
      some (⟨⟨-3, 1, [a, b, c]⟩, [h]⟩,
        [[], [Event.Yield, Event.Block a], [Event.Yield, Event.Block b],
          [Event.Yield, Event.Block c]]) ∧
    World.step ⟨⟨-3, 1, [a, b, c]⟩, [h]⟩ Op.cancel =
      some (⟨⟨-3, 0, []⟩, [h, a, b, c]⟩,
        [Event.Unblock a, Event.Unblock b, Event.Unblock c]) := by
  refine ⟨?_, ?_, ?_, ?_, ?_, ?_, ?_⟩
  · simp [cancel_eq]
  · simp [cancel_eq]
  · simp [cancel_eq]
  · simp [cancel_eq]
  · simp [cancel_eq, woken_map_Unblock]
  · have e0 : World.init 1 = ⟨⟨1, 1, []⟩, []⟩ := by
      simp [World.init, impl.construct, to_int]
    have hq : ∀ q : List Context, q.length < 4 → q.length < MAX_PARKED := by
      intro q hq
      simp only [MAX_PARKED]
      omega
    have s1 := step_acquire_grant 1 [] [] h (by omega) (by omega) (hq _ (by simp))
    have s2 := step_acquire_park 0 [] [h] a (by omega) (by omega) (hq _ (by simp))
    have s3 := step_acquire_park (-1) [a] [h] b (by omega) (by omega) (hq _ (by simp))
    have s4 := step_acquire_park (-2) [a, b] [h] c (by omega) (by omega) (hq _ (by simp))
    norm_num at s1 s2 s3 s4
    rw [e0, run_cons_eq _ _ _ _ _ s1, run_cons_eq _ _ _ _ _ s2, run_cons_eq _ _ _ _ _ s3,
      run_cons_eq _ _ _ _ _ s4]
    simp [World.run]
  · simp [World.step, World.live_after, impl.call, cancel_eq, woken]

/-- Claim C7: cancel is idempotent. In every state, a second `cancel` right
after a first one leaves the state of the first and makes no runtime call, so
it unblocks no context. -/
theorem cancel_idempotent (s : impl) :
    s.cancel.1.cancel = (s.cancel.1, []) ∧
    s.cancel.1.cancel.1 = s.cancel.1 ∧
    woken s.cancel.1.cancel.2 = [] := by
  simp [cancel_eq, woken]

/-! ## Release and blocking acquire -/

/-- Claim C8, amended: release wakes exactly one waiter exactly when one
exists. In every running state that satisfies the accounting invariant (for
any capacity `N`) and whose `count_` is an `int` below `INT_MAX`,
`release_ticket` returns, raises `count_` by exactly 1 and leaves
`is_running_` unchanged; if `count_` was negative it removes exactly the head
of `waiting_contexts_` and its only runtime call is the `Unblock` of that
context; if `count_` was non-negative it makes no runtime call and leaves
`waiting_contexts_` unchanged. -/
theorem release_wakes_one_waiter (N : Nat) (w : World) (hrun : w.gov.is_running_ ≠ 0)
    (hacc : Accounting N w) (hmin : INT_MIN ≤ w.gov.count_)
    (hmax : w.gov.count_ < INT_MAX) :
    ∃ s1 ev, w.gov.release_ticket = some (s1, ev) ∧
      s1.count_ = w.gov.count_ + 1 ∧
      s1.is_running_ = w.gov.is_running_ ∧
      (w.gov.count_ < 0 → ∃ x rest, w.gov.waiting_contexts_ = x :: rest ∧
        s1.waiting_contexts_ = rest ∧ ev = [Event.Unblock x]) ∧
      (0 ≤ w.gov.count_ → s1.waiting_contexts_ = w.gov.waiting_contexts_ ∧ ev = []) := by
  obtain ⟨s, live⟩ := w
  simp only [INT_MIN] at hmin
  simp only [INT_MAX] at hmax
  simp only at hrun hmin hmax
  simp only
  by_cases hc : s.count_ < 0
  · have hlen := hacc.2 hc
    simp only at hlen
    have h2 : ¬ (0 ≤ s.count_) := by omega
    cases hq : s.waiting_contexts_ with
    | nil =>
      rw [hq] at hlen
      simp at hlen
      omega
    | cons x rest =>
      refine ⟨_, _, release_ticket_pop s x rest hrun hmin hc hq, rfl, rfl, ?_, ?_⟩
      · intro _
        exact ⟨x, rest, rfl, rfl, rfl⟩
      · intro h0
        exact absurd h0 h2
  · have h2 : 0 ≤ s.count_ := by omega
    refine ⟨_, _, release_ticket_plain s hrun h2 hmax, rfl, rfl, ?_, ?_⟩
    · intro h0
      exact absurd h0 hc
    · intro _
      exact ⟨rfl, rfl⟩

/-- Capacity 2, tickets of 1 and 2 live, contexts 3 and 4 parked. -/
theorem release_wakes_one_waiter_witness :
    ∃ s1 ev, impl.release_ticket ⟨-2, 1, [3, 4]⟩ = some (s1, ev) ∧
      s1.count_ = -2 + 1 ∧
      s1.is_running_ = 1 ∧
      ((-2 : Int) < 0 → ∃ x rest, [3, 4] = x :: rest ∧
        s1.waiting_contexts_ = rest ∧ ev = [Event.Unblock x]) ∧
      (0 ≤ (-2 : Int) → s1.waiting_contexts_ = [3, 4] ∧ ev = []) :=
  release_wakes_one_waiter 2 ⟨⟨-2, 1, [3, 4]⟩, [1, 2]⟩ (by decide) (by decide) (by decide)
    (by decide)

/-- After `governor(2147483648).acquire()` the governor is running with
`count_ = INT_MAX` and one live ticket, and the accounting invariant holds for
`N = 2147483648`. The `++count_` of `release_ticket` wraps to `INT_MIN`: with
the queue empty the pop loop never exits, and with a context queued that
context is popped although `count_` was non-negative. -/
theorem release_wakes_counterexample :
    World.step (World.init 2147483648) (Op.acquire 1) =
      some (⟨⟨2147483647, 1, []⟩, [1]⟩, [Event.Yield]) ∧
    Accounting 2147483648 ⟨⟨2147483647, 1, []⟩, [1]⟩ ∧
    (⟨2147483647, 1, []⟩ : impl).is_running_ ≠ 0 ∧
    impl.release_ticket ⟨2147483647, 1, []⟩ = none ∧
    impl.release_ticket ⟨2147483647, 1, [5]⟩ =
      some (⟨-2147483648, 1, []⟩, [Event.Unblock 5]) := by
  refine ⟨by decide, by decide, by decide, by decide, by decide⟩

theorem run_acquires_park (h : Context) (cs : List Context) : ∀ (q : List Context),
    q.length + cs.length ≤ MAX_PARKED →
    World.run ⟨⟨-(q.length : Int), 1, q⟩, [h]⟩ (cs.map Op.acquire) =
      some (⟨⟨-((q ++ cs).length : Int), 1, q ++ cs⟩, [h]⟩,
        cs.map fun c => [Event.Yield, Event.Block c]) := by
  induction cs with
  | nil => intro q _; simp [World.run]
  | cons c cs ih =>
    intro q hq
    simp only [List.length_cons, MAX_PARKED] at hq
    have hs := step_acquire_park (-(q.length : Int)) q [h] c (by omega) (by omega)
      (by simp only [MAX_PARKED]; omega)
    have e : -(q.length : Int) - 1 = -((q ++ [c]).length : Int) := by
      simp only [List.length_append, List.length_singleton]
      push_cast
      omega
    rw [e] at hs
    rw [List.map_cons, run_cons_eq _ _ _ _ _ hs,
      ih (q ++ [c]) (by simp only [List.length_append, List.length_singleton, MAX_PARKED]; omega)]
    simp

theorem run_acquires_bound (h : Context) (cs : List Context) : ∀ (q : List Context)
    (w : World) (evs : List (List Event)), q.length ≤ MAX_PARKED →
    World.run ⟨⟨-(q.length : Int), 1, q⟩, [h]⟩ (cs.map Op.acquire) = some (w, evs) →
    q.length + cs.length ≤ MAX_PARKED := by
  induction cs with
  | nil => intro q w evs hq _; simpa using hq
  | cons c cs ih =>
    intro q w evs hq hr
    obtain ⟨w2, ev, evs2, hs, hr2, -⟩ := run_cons_some _ w _ _ evs hr
    by_cases hguard : q.length < MAX_PARKED
    · simp only [MAX_PARKED] at hguard hq
      have hs2 := step_acquire_park (-(q.length : Int)) q [h] c (by omega) (by omega)
        (by simp only [MAX_PARKED]; omega)
      have e : -(q.length : Int) - 1 = -((q ++ [c]).length : Int) := by
        simp only [List.length_append, List.length_singleton]
        push_cast
        omega
      rw [e] at hs2
      rw [hs2] at hs
      simp only [Option.some.injEq, Prod.mk.injEq] at hs
      obtain ⟨rfl, -⟩ := hs
      have := ih (q ++ [c]) w evs2
        (by simp only [List.length_append, List.length_singleton, MAX_PARKED]; omega) hr2
      simp only [List.length_append, List.length_singleton] at this
      simp only [List.length_cons]
      omega
    · simp [World.step, hguard] at hs

theorem run_releases_wake (cs : List Context) : ∀ (h : Context) (hk : cs ≠ []),
    cs.length ≤ 2147483648 →
    World.run ⟨⟨-(cs.length : Int), 1, cs⟩, [h]⟩ ((h :: cs.dropLast).map Op.release) =
      some (⟨⟨0, 1, []⟩, [cs.getLast hk]⟩, cs.map fun c => [Event.Unblock c]) := by
  induction cs with
  | nil => intro h hk; exact absurd rfl hk
  | cons c rest ih =>
    intro h hk hlen
    simp only [List.length_cons] at hlen
    have hs := step_release_pop (-((c :: rest).length : Int)) c rest [h] h
      (by simp only [List.length_cons]; push_cast; omega)
      (by simp only [List.length_cons]; push_cast; omega) (by simp)
    have e : -((c :: rest).length : Int) + 1 = -(rest.length : Int) := by
      simp only [List.length_cons]
      push_cast
      omega
    rw [e] at hs
    simp only [List.erase_cons_head, List.nil_append] at hs
    cases rest with
    | nil =>
      simp only [List.length_nil, Nat.cast_zero, neg_zero] at hs
      simp only [List.dropLast_single, List.map_cons, List.map_nil]
      rw [run_cons_eq _ _ _ _ _ hs]
      simp [World.run]
    | cons d rest2 =>
      have hd : (d :: rest2) ≠ [] := by simp
      have e2 := ih c hd (by simp only [List.length_cons] at hlen ⊢; omega)
      rw [List.dropLast_cons₂, List.map_cons, run_cons_eq _ _ _ _ _ hs, e2]
      simp

/-- Claim C10, amended: blocking acquire in the running state. In every state
with `is_running_` true whose `count_` is an `int` other than `INT_MIN`,
`acquire_ticket` lowers `count_` by exactly 1 and leaves `is_running_`
unchanged. The caller is not blocked if and only if `count_` was at least 1
before; in that case no runtime call is made and `waiting_contexts_` is
unchanged. Otherwise (`count_ <= 0` before) the caller's context is appended
at the tail of `waiting_contexts_`, behind all contexts already queued, and
the caller is blocked (`Yield`, then `Block`). -/
theorem acquire_ticket_running (s : impl) (c : Context) (hrun : s.is_running_ ≠ 0)
    (hmin : INT_MIN < s.count_) (hmax : s.count_ ≤ INT_MAX) :
    (s.acquire_ticket c).1.count_ = s.count_ - 1 ∧
    (s.acquire_ticket c).1.is_running_ = s.is_running_ ∧
    (Event.Block c ∉ (s.acquire_ticket c).2 ↔ 1 ≤ s.count_) ∧
    (1 ≤ s.count_ →
      (s.acquire_ticket c).1.waiting_contexts_ = s.waiting_contexts_ ∧
      (s.acquire_ticket c).2 = []) ∧
    (s.count_ ≤ 0 →
      (s.acquire_ticket c).1.waiting_contexts_ = s.waiting_contexts_ ++ [c] ∧
      (s.acquire_ticket c).2 = [Event.Yield, Event.Block c]) := by
  simp only [INT_MIN] at hmin
  simp only [INT_MAX] at hmax
  by_cases hc : 1 ≤ s.count_
  · have h3 : ¬ (s.count_ ≤ 0) := by omega
    simp [acquire_ticket_grant s c hrun hc hmax, hc, h3]
  · have h3 : s.count_ ≤ 0 := by omega
    simp [acquire_ticket_park s c hrun hmin h3, hc, h3]

/-- No unit free and context 5 already parked: caller 7 queues behind it. -/
theorem acquire_ticket_running_witness :
    (impl.acquire_ticket ⟨-1, 1, [5]⟩ 7).1.count_ = -1 - 1 ∧
    (impl.acquire_ticket ⟨-1, 1, [5]⟩ 7).1.is_running_ = 1 ∧
    (Event.Block 7 ∉ (impl.acquire_ticket ⟨-1, 1, [5]⟩ 7).2 ↔ (1 : Int) ≤ -1) ∧
    ((1 : Int) ≤ -1 →
      (impl.acquire_ticket ⟨-1, 1, [5]⟩ 7).1.waiting_contexts_ = [5] ∧
      (impl.acquire_ticket ⟨-1, 1, [5]⟩ 7).2 = []) ∧
    ((-1 : Int) ≤ 0 →
      (impl.acquire_ticket ⟨-1, 1, [5]⟩ 7).1.waiting_contexts_ = [5] ++ [7] ∧
      (impl.acquire_ticket ⟨-1, 1, [5]⟩ 7).2 = [Event.Yield, Event.Block 7]) :=
  acquire_ticket_running ⟨-1, 1, [5]⟩ 7 (by decide) (by decide) (by decide)

/-- In the running state of `governor(2147483648)`, `count_ = INT_MIN <= 0`,
yet `--count_` wraps to `INT_MAX`: the caller of `acquire` is neither queued
nor blocked, and `count_` has not gone down by 1. -/
theorem acquire_ticket_counterexample :
    impl.construct 2147483648 = ⟨-2147483648, 1, []⟩ ∧
    (impl.construct 2147483648).is_running_ ≠ 0 ∧
    (impl.construct 2147483648).count_ ≤ 0 ∧
    impl.acquire_ticket (impl.construct 2147483648) 7 =
      (⟨2147483647, 1, []⟩, [Event.Yield]) ∧
    Event.Block 7 ∉ (impl.acquire_ticket (impl.construct 2147483648) 7).2 ∧
    (impl.acquire_ticket (impl.construct 2147483648) 7).1.count_ ≠
      (impl.construct 2147483648).count_ - 1 := by
  refine ⟨by decide, by decide, by decide, by decide, by decide, by decide⟩

/-! ## Construction -/

/-- Claim C11, amended: construction establishes the initial state for every
capacity that fits an `int`. For every `size_t` capacity, the constructed
governor has `is_running_` true, an empty wait queue, and `count_` equal to
the capacity converted to `int`; for every capacity up to `INT_MAX` that is
the capacity itself. -/
theorem construct_initial_state (capacity : Nat) :
    (impl.construct capacity).is_running_ = 1 ∧
    (impl.construct capacity).is_running_ ≠ 0 ∧
    (impl.construct capacity).waiting_contexts_ = [] ∧
    (impl.construct capacity).count_ = to_int capacity ∧
    ((capacity : Int) ≤ INT_MAX →
      (impl.construct capacity).count_ = (capacity : Int) ∧
      impl.construct capacity = ⟨(capacity : Int), 1, []⟩) := by
  refine ⟨rfl, by simp [impl.construct], rfl, rfl, fun h => ?_⟩
  simp [impl.construct, to_int_small capacity h]

/-- The largest capacity an `int` holds. -/
theorem construct_initial_state_witness :
    (impl.construct 2147483647).count_ = ((2147483647 : Nat) : Int) ∧
    impl.construct 2147483647 = ⟨((2147483647 : Nat) : Int), 1, []⟩ :=
  (construct_initial_state 2147483647).2.2.2.2 (by decide)

/-- The capacity `2147483648` is a `size_t` value, and the governor built
from it has `count_ = -2147483648`, not the capacity. -/
theorem construct_counterexample :
    (impl.construct 2147483648).count_ = -2147483648 ∧
    (impl.construct 2147483648).count_ ≠ ((2147483648 : Nat) : Int) ∧
    ¬ (∀ capacity : Nat, capacity < 4294967296 →
        (impl.construct capacity).count_ = (capacity : Int)) := by
  refine ⟨by decide, by decide, fun h => ?_⟩
  have h1 := h 2147483648 (by decide)
  revert h1
  decide

/-! ## The worked scenario and capacity 0 -/

theorem run_acquires_proceed (cs : List Context) : ∀ (live : List Context) (n : Int),
    (cs.length : Int) ≤ n → n ≤ 2147483647 →
    World.run ⟨⟨n, 1, []⟩, live⟩ (cs.map Op.acquire) =
      some (⟨⟨n - (cs.length : Int), 1, []⟩, live ++ cs⟩, cs.map fun _ => []) := by
  induction cs with
  | nil => intro live n _ _; simp [World.run]
  | cons c cs ih =>
    intro live n hn hmax
    simp only [List.length_cons] at hn
    push_cast at hn
    have h1 : 1 ≤ n := by omega
    rw [List.map_cons,
      run_cons_eq _ _ _ _ _ (step_acquire_grant n [] live c h1 hmax (by simp [MAX_PARKED])),
      ih (live ++ [c]) (n - 1) (by omega) (by omega)]
    simp only [List.length_cons, Option.map_some', List.map_cons, List.append_assoc,
      List.singleton_append]
    push_cast
    have e : n - 1 - (cs.length : Int) = n - ((cs.length : Int) + 1) := by omega
    rw [e]

/-- Claim C12, amended: the worked scenario for every capacity that fits an
`int`. For every `N <= INT_MAX`, any `N` callers `cs`, any caller `C` and any
held ticket `d` (so `N >= 1`): from `governor(N)` the `N` acquires all return
without runtime call and leave `count_ = 0` with the `N` tickets live; the
next acquire parks `C` with `count_ = -1`; dropping the ticket `d` then gives
`count_ = 0`, unblocks `C` and nobody else, leaves the queue empty, and
leaves exactly `N` tickets live, those of the other holders and of `C`. -/
theorem worked_scenario (N : Nat) (hN : (N : Int) ≤ INT_MAX) (cs : List Context)
    (hlen : cs.length = N) (C d : Context) (hd : d ∈ cs) :
    World.run (World.init N) (cs.map Op.acquire) =
      some (⟨⟨0, 1, []⟩, cs⟩, cs.map fun _ => []) ∧
    World.step ⟨⟨0, 1, []⟩, cs⟩ (Op.acquire C) =
      some (⟨⟨-1, 1, [C]⟩, cs⟩, [Event.Yield, Event.Block C]) ∧
    World.step ⟨⟨-1, 1, [C]⟩, cs⟩ (Op.release d) =
      some (⟨⟨0, 1, []⟩, cs.erase d ++ [C]⟩, [Event.Unblock C]) ∧
    (cs.erase d ++ [C]).length = N := by
  refine ⟨?_, ?_, ?_, ?_⟩
  · have h := run_acquires_proceed cs [] (N : Int) (by omega) (by simpa [INT_MAX] using hN)
    have e : (N : Int) - (cs.length : Int) = 0 := by omega
    rw [e] at h
    simpa [World.init, impl.construct, to_int_small N hN] using h
  · have s := step_acquire_park 0 [] cs C (by omega) (by omega) (by simp [MAX_PARKED])
    norm_num at s
    exact s
  · have s := step_release_pop (-1) C [] cs d (by omega) (by omega) hd
    norm_num at s
    exact s
  · have hpos : 0 < cs.length := List.length_pos_of_mem hd
    rw [List.length_append, List.length_erase_of_mem hd, List.length_singleton]
    omega

/-- The scenario of the data model: capacity 2, callers A = 1, B = 2, C = 3,
and A's ticket dropped. -/
theorem worked_scenario_witness :
    World.run (World.init 2) [Op.acquire 1, Op.acquire 2] =
      some (⟨⟨0, 1, []⟩, [1, 2]⟩, [[], []]) ∧
    World.step ⟨⟨0, 1, []⟩, [1, 2]⟩ (Op.acquire 3) =
      some (⟨⟨-1, 1, [3]⟩, [1, 2]⟩, [Event.Yield, Event.Block 3]) ∧
    World.step ⟨⟨-1, 1, [3]⟩, [1, 2]⟩ (Op.release 1) =
      some (⟨⟨0, 1, []⟩, [2, 3]⟩, [Event.Unblock 3]) ∧
    ([2, 3] : List Context).length = 2 :=
  worked_scenario 2 (by decide) [1, 2] rfl 3 1 (by decide)

/-- With capacity `2147483649` the counter starts at `-2147483647`, and the
first acquire already parks its caller. -/
theorem worked_scenario_counterexample :
    (World.init 2147483649).gov.count_ = -2147483647 ∧
    World.step (World.init 2147483649) (Op.acquire 1) =
      some (⟨⟨-2147483648, 1, [1]⟩, []⟩, [Event.Yield, Event.Block 1]) := by
  constructor <;> decide

/-- A governor without free unit and without live ticket: every cancel-free
run only parks more callers. -/
theorem run_idle (ops : List Op) : ∀ (q : List Context) (w : World)
    (evs : List (List Event)), Op.cancel ∉ ops → q.length ≤ MAX_PARKED →
    World.run ⟨⟨-(q.length : Int), 1, q⟩, []⟩ ops = some (w, evs) →
    w = ⟨⟨-((q ++ acquirers ops).length : Int), 1, q ++ acquirers ops⟩, []⟩ ∧
    (q ++ acquirers ops).length ≤ MAX_PARKED ∧
    ∀ ev ∈ evs, woken ev = [] := by
  induction ops with
  | nil =>
    intro q w evs _ hq h
    simp [World.run] at h
    obtain ⟨rfl, rfl⟩ := h
    simp [acquirers, hq]
  | cons op ops ih =>
    intro q w evs hno hq h
    have hno1 : Op.cancel ∉ ops := fun e => hno (by simp [e])
    obtain ⟨w2, ev, evs2, hs, hr, rfl⟩ := run_cons_some _ w op ops evs h
    simp only [MAX_PARKED] at hq
    cases op with
    | acquire c =>
      by_cases hguard : q.length < MAX_PARKED
      · simp only [MAX_PARKED] at hguard
        have hs2 := step_acquire_park (-(q.length : Int)) q [] c (by omega) (by omega)
          (by simp only [MAX_PARKED]; omega)
        have e : -(q.length : Int) - 1 = -((q ++ [c]).length : Int) := by
          simp only [List.length_append, List.length_singleton]
          push_cast
          omega
        rw [e] at hs2
        rw [hs2] at hs
        simp only [Option.some.injEq, Prod.mk.injEq] at hs
        obtain ⟨rfl, rfl⟩ := hs
        obtain ⟨e1, e2, e3⟩ := ih (q ++ [c]) w evs2 hno1
          (by simp only [List.length_append, List.length_singleton, MAX_PARKED]; omega) hr
        refine ⟨by simpa [acquirers] using e1, by simpa [acquirers] using e2, ?_⟩
        intro ev hev
        simp only [List.mem_cons] at hev
        rcases hev with rfl | hev
        · simp [woken]
        · exact e3 ev hev
      · simp [World.step, hguard] at hs
    | try_acquire c =>
      have hs2 := step_try_acquire_fail (-(q.length : Int)) q [] c (by omega) (by omega)
      rw [hs2] at hs
      simp only [Option.some.injEq, Prod.mk.injEq] at hs
      obtain ⟨rfl, rfl⟩ := hs
      obtain ⟨e1, e2, e3⟩ := ih q w evs2 hno1 (by simp only [MAX_PARKED]; omega) hr
      refine ⟨by simpa [acquirers] using e1, by simpa [acquirers] using e2, ?_⟩
      intro ev hev
      simp only [List.mem_cons] at hev
      rcases hev with rfl | hev
      · simp [woken]
      · exact e3 ev hev
    | release c =>
      simp [World.step] at hs
    | cancel => exact absurd (by simp) hno

/-- Claim C14, amended: one capsule per grant. The ticket returned by
`acquire` holds exactly one capsule, bound to the issuing governor. A
successful `try_acquire` appends exactly one capsule bound to the issuing
governor at the end of the ticket vector it was given, keeping the capsules
already there, so the vector holds exactly one capsule when it was passed
empty; a failed `try_acquire` leaves the vector as it was. -/
theorem one_capsule_per_grant (s : impl) (self : ImplPtr) (c : Context)
    (ticket : ticket_t) :
    (s.acquire self c).1 = [Capsule.mk self] ∧
    (s.acquire self c).1.length = 1 ∧
    ((s.try_acquire self ticket).1 = true →
      (s.try_acquire self ticket).2.1 = ticket ++ [Capsule.mk self] ∧
      (s.try_acquire self ticket).2.1.length = ticket.length + 1 ∧
      (ticket = [] → (s.try_acquire self ticket).2.1 = [Capsule.mk self])) ∧
    ((s.try_acquire self ticket).1 = false →
      (s.try_acquire self ticket).2.1 = ticket) := by
  refine ⟨rfl, rfl, ?_, ?_⟩
  · intro h
    by_cases hb : s.try_acquire_ticket.1 = false
    · simp [impl.try_acquire, hb] at h
    · have e : (s.try_acquire self ticket).2.1 = ticket ++ [Capsule.mk self] := by
        simp [impl.try_acquire, hb]
      rw [e]
      refine ⟨rfl, by simp, ?_⟩
      intro h0
      simp [h0]
  · intro h
    by_cases hb : s.try_acquire_ticket.1 = false
    · simp [impl.try_acquire, hb]
    · simp [impl.try_acquire, hb] at h

/-- One free unit, and a ticket vector that already holds one capsule. -/
theorem one_capsule_per_grant_witness :
    (impl.try_acquire ⟨1, 1, []⟩ 9 [⟨8⟩]).2.1 = [⟨8⟩] ++ [Capsule.mk 9] ∧
    (impl.try_acquire ⟨1, 1, []⟩ 9 [⟨8⟩]).2.1.length = ([⟨8⟩] : ticket_t).length + 1 ∧
    (([⟨8⟩] : ticket_t) = [] →
      (impl.try_acquire ⟨1, 1, []⟩ 9 [⟨8⟩]).2.1 = [Capsule.mk 9]) :=
  (one_capsule_per_grant ⟨1, 1, []⟩ 9 0 [⟨8⟩]).2.2.1 (by decide)

/-- Governor 9 has a free unit and is handed a ticket vector that already
holds one of its capsules: `try_acquire` succeeds and the vector then holds
two capsules, both bound to governor 9. -/
theorem one_capsule_counterexample :
    impl.try_acquire ⟨1, 1, []⟩ 9 [⟨9⟩] = (true, [⟨9⟩, ⟨9⟩], ⟨0, 1, []⟩, []) ∧
    (impl.try_acquire ⟨1, 1, []⟩ 9 [⟨9⟩]).2.1.length = 2 ∧
    ((impl.try_acquire ⟨1, 1, []⟩ 9 [⟨9⟩]).2.1.filter fun k => k.self = 9).length = 2 := by
  refine ⟨by decide, by decide, by decide⟩

theorem copies_owners (self : ImplPtr) (k : Nat) :
    SharedCapsule.copies ⟨⟨self⟩, [0]⟩ k = ⟨⟨self⟩, List.range (k + 1)⟩ := by
  induction k with
  | zero => rfl
  | succ k ih =>
    have h0 : 0 ∈ List.range (k + 1) := List.mem_range.mpr (by omega)
    simp only [SharedCapsule.copies, ih, SharedCapsule.copy, h0, if_true]
    rw [List.range_succ (n := k + 1)]

theorem drop_all_eq (order : List Nat) :
    ∀ (c : SharedCapsule) (s : impl), order ≠ [] → order.Perm c.owners →
    c.drop_all s order =
      s.release_ticket.map fun r =>
        (r.1, { c with owners := [] }, List.replicate (order.length - 1) false ++ [true]) := by
  induction order with
  | nil => intro c s h _; exact absurd rfl h
  | cons t order ih =>
    intro c s _ hperm
    have hmem : t ∈ c.owners := hperm.subset (List.mem_cons_self t order)
    have hrest : order.Perm (c.owners.erase t) :=
      (List.cons_perm_iff_perm_erase.mp hperm).2
    by_cases hlast : c.owners.erase t = []
    · have ho : order = [] := by
        rw [hlast] at hrest
        exact List.Perm.eq_nil hrest
      subst ho
      cases hr : s.release_ticket with
      | none => simp [SharedCapsule.drop_all, SharedCapsule.drop, hmem, hlast, hr]
      | some r => simp [SharedCapsule.drop_all, SharedCapsule.drop, hmem, hlast, hr]
    · have ho : order ≠ [] := by
        intro e
        rw [e] at hrest
        exact hlast (List.Perm.nil_eq hrest).symm
      have hstep : c.drop s t = some (s, { c with owners := c.owners.erase t }, false) := by
        simp [SharedCapsule.drop, hmem, hlast]
      have hrec := ih { c with owners := c.owners.erase t } s ho hrest
      have hl : 0 < order.length := List.length_pos.mpr ho
      have e : (t :: order).length - 1 = (order.length - 1) + 1 := by
        simp only [List.length_cons]; omega
      simp only [SharedCapsule.drop_all, hstep, hrec, e, List.replicate_succ]
      cases s.release_ticket with
      | none => rfl
      | some r => rfl

/-- Claim C15, amended: one release per capsule. The ticket returned by
`acquire` holds one capsule of the issuing governor; it is ticket object 0,
copied `k` times, and the `k + 1` ticket objects are destroyed in any order
`order`. Whatever the state `s` of the governor, the drops run
`release_ticket` exactly once, by the last drop and by none before it, on
the state `s` itself, and leave no owner. In a running state whose `count_`
is an `int` below `INT_MAX` that call raises `count_` by exactly 1 when it
returns, and it returns whenever a waiter is queued or `count_ >= 0`. -/
theorem one_release_per_capsule (s0 s : impl) (self : ImplPtr) (c : Context) (k : Nat)
    (order : List Nat) (horder : order.Perm (List.range (k + 1))) :
    ticket_capsules (s0.acquire self c).1 0 = [⟨⟨self⟩, [0]⟩] ∧
    (SharedCapsule.copies ⟨⟨self⟩, [0]⟩ k).owners = List.range (k + 1) ∧
    (SharedCapsule.copies ⟨⟨self⟩, [0]⟩ k).drop_all s order =
      (s.release_ticket.map fun r =>
        (r.1, ⟨⟨self⟩, []⟩, List.replicate k false ++ [true])) ∧
    (s.is_running_ ≠ 0 → INT_MIN ≤ s.count_ → s.count_ < INT_MAX →
      (∀ s1 log, (SharedCapsule.copies ⟨⟨self⟩, [0]⟩ k).drop_all s order =
          some (s1, ⟨⟨self⟩, []⟩, log) →
        s1.count_ = s.count_ + 1 ∧ log = List.replicate k false ++ [true]) ∧
      ((s.count_ < 0 → s.waiting_contexts_ ≠ []) →
        ∃ s1, (SharedCapsule.copies ⟨⟨self⟩, [0]⟩ k).drop_all s order =
            some (s1, ⟨⟨self⟩, []⟩, List.replicate k false ++ [true]) ∧
          s1.count_ = s.count_ + 1)) := by
  have hne : order ≠ [] := by
    intro e
    rw [e] at horder
    have := List.Perm.length_eq horder
    simp at this
  have hlen : order.length = k + 1 := by
    rw [List.Perm.length_eq horder, List.length_range]
  have hall : (SharedCapsule.copies ⟨⟨self⟩, [0]⟩ k).drop_all s order =
      (s.release_ticket.map fun r =>
        (r.1, ⟨⟨self⟩, []⟩, List.replicate k false ++ [true])) := by
    rw [copies_owners]
    have h := drop_all_eq order ⟨⟨self⟩, List.range (k + 1)⟩ s hne horder
    rw [h, hlen]
    rfl
  refine ⟨rfl, by rw [copies_owners], hall, ?_⟩
  intro hrun hmin hmax
  simp only [INT_MIN] at hmin
  simp only [INT_MAX] at hmax
  have hrel : ∃ q ev, (s.count_ < 0 → s.waiting_contexts_ ≠ [] →
        s.release_ticket = some (⟨s.count_ + 1, s.is_running_, q⟩, ev)) ∧
      (0 ≤ s.count_ → s.release_ticket = some (⟨s.count_ + 1, s.is_running_, q⟩, ev)) ∧
      (s.count_ < 0 → s.waiting_contexts_ = [] → s.release_ticket = none) := by
    by_cases h0 : 0 ≤ s.count_
    · exact ⟨_, _, fun h => absurd h0 (by omega),
        fun _ => release_ticket_plain s hrun h0 hmax, fun h => absurd h0 (by omega)⟩
    · have hneg : s.count_ < 0 := by omega
      cases hq : s.waiting_contexts_ with
      | nil =>
        refine ⟨[], [], fun _ h => absurd rfl h, fun h => absurd h h0, fun _ _ => ?_⟩
        have hw : wrap (s.count_ + 1) = s.count_ + 1 :=
          wrap_of_range _ (by omega) (by omega)
        exact release_ticket_spin s hrun (by rw [hw]; omega) hq
      | cons x rest =>
        exact ⟨rest, [Event.Unblock x],
          fun _ _ => release_ticket_pop s x rest hrun hmin hneg hq,
          fun h => absurd h h0, fun _ h => by simp at h⟩
  obtain ⟨q, ev, r1, r2, r3⟩ := hrel
  constructor
  · intro s1 log hd
    rw [hall] at hd
    by_cases h0 : 0 ≤ s.count_
    · rw [r2 h0] at hd
      simp only [Option.map_some', Option.some.injEq, Prod.mk.injEq] at hd
      obtain ⟨rfl, -, rfl⟩ := hd
      exact ⟨rfl, rfl⟩
    · have hneg : s.count_ < 0 := by omega
      by_cases hq : s.waiting_contexts_ = []
      · rw [r3 hneg hq] at hd
        simp at hd
      · rw [r1 hneg hq] at hd
        simp only [Option.map_some', Option.some.injEq, Prod.mk.injEq] at hd
        obtain ⟨rfl, -, rfl⟩ := hd
        exact ⟨rfl, rfl⟩
  · intro hw
    rw [hall]
    by_cases h0 : 0 ≤ s.count_
    · rw [r2 h0]
      exact ⟨_, rfl, rfl⟩
    · have hneg : s.count_ < 0 := by omega
      rw [r1 hneg (hw hneg)]
      exact ⟨_, rfl, rfl⟩

/-- A ticket of governor 9 copied three times and dropped in the order
2, 0, 3, 1, with one unit free before. -/
theorem one_release_per_capsule_witness :
    ∃ s1, (SharedCapsule.copies ⟨⟨9⟩, [0]⟩ 3).drop_all ⟨0, 1, []⟩ [2, 0, 3, 1] =
        some (s1, ⟨⟨9⟩, []⟩, List.replicate 3 false ++ [true]) ∧
      s1.count_ = 0 + 1 :=
  ((one_release_per_capsule ⟨1, 1, []⟩ ⟨0, 1, []⟩ 9 7 3 [2, 0, 3, 1] (by decide)).2.2.2
    (by decide) (by decide) (by decide)).2 (by decide)

/-- The ticket granted by `governor(2147483648).acquire()` is held while
`count_ = INT_MAX`. Copied once and dropped twice, its single
`release_ticket` wraps `count_` to `INT_MIN`: with the queue empty the call
never returns, and with a context queued `count_` ends at `-2147483648`,
not at `count_ + 1`. -/
theorem one_release_counterexample :
    World.step (World.init 2147483648) (Op.acquire 1) =
      some (⟨⟨2147483647, 1, []⟩, [1]⟩, [Event.Yield]) ∧
    (SharedCapsule.copies ⟨⟨9⟩, [0]⟩ 1).drop_all ⟨2147483647, 1, []⟩ [1, 0] = none ∧
    (SharedCapsule.copies ⟨⟨9⟩, [0]⟩ 1).drop_all ⟨2147483647, 1, [5]⟩ [1, 0] =
      some (⟨-2147483648, 1, []⟩, ⟨⟨9⟩, []⟩, [false, true]) := by
  refine ⟨by decide, by decide, by decide⟩

/-! ## Interleaved execution -/

/-- Claim C16, the code at the failing schedule. Capacity 0, thread 0 calls
`acquire` and thread 1 calls `cancel`. Thread 0 tests `is_running_`; thread 1
clears it, finds the queue empty and returns; thread 0 then decrements
`count_` to -1, pushes its context and blocks. In the state reached thread 0
is parked, `is_running_` is false, `cancel` has returned, and no thread has
a step left: the caller stays parked. -/
theorem cancel_race_leaves_waiter_parked :
    Sys.exec ⟨impl.construct 0, [Pc.acquire_enter, Pc.cancel_enter], []⟩
        [0, 1, 1, 0, 0, 0] =
      some ⟨⟨-1, 0, [0]⟩, [Pc.parked, Pc.cancel_done], []⟩ ∧
    (⟨⟨-1, 0, [0]⟩, [Pc.parked, Pc.cancel_done], []⟩ : Sys).threads.get? 0 =
      some Pc.parked ∧
    (⟨⟨-1, 0, [0]⟩, [Pc.parked, Pc.cancel_done], []⟩ : Sys).gov.is_running_ = 0 ∧
    ∀ t, Sys.step ⟨⟨-1, 0, [0]⟩, [Pc.parked, Pc.cancel_done], []⟩ t = none := by
  refine ⟨by decide, by decide, by decide, ?_⟩
  intro t
  match t with
  | 0 => rfl
  | 1 => rfl
  | n + 2 => rfl

/-- Claim C17, the code at the failing schedule. Capacity 1; thread 0
acquires the unit, thread 1 calls `try_acquire`, thread 2 drops the ticket of
thread 0, threads 3 and 4 call `acquire`. After thread 1 has decremented
`count_` to -1 and before it increments it back, the increment of thread 2
returns 0: the release enters its pop loop although no acquirer is parked or
about to park, and it spins. Thread 1 then restores `count_` to 1, thread 3
takes the unit, thread 4 parks, and the spinning release unblocks thread 4:
two tickets are live on a governor of capacity 1. -/
theorem try_acquire_race_breaks_capacity :
    Sys.exec ⟨impl.construct 1, [Pc.acquire_enter, Pc.try_enter, Pc.release_enter 0,
        Pc.acquire_enter, Pc.acquire_enter], []⟩ [0, 0, 1, 1, 2, 2] =
      some ⟨⟨0, 1, []⟩, [Pc.dropped, Pc.try_undo, Pc.release_pop,
        Pc.acquire_enter, Pc.acquire_enter], []⟩ ∧
    Sys.has_parking_acquirer ⟨⟨0, 1, []⟩, [Pc.dropped, Pc.try_undo, Pc.release_pop,
        Pc.acquire_enter, Pc.acquire_enter], []⟩ = false ∧
    Sys.step ⟨⟨0, 1, []⟩, [Pc.dropped, Pc.try_undo, Pc.release_pop,
        Pc.acquire_enter, Pc.acquire_enter], []⟩ 2 =
      some ⟨⟨0, 1, []⟩, [Pc.dropped, Pc.try_undo, Pc.release_pop,
        Pc.acquire_enter, Pc.acquire_enter], []⟩ ∧
    Sys.exec ⟨⟨0, 1, []⟩, [Pc.dropped, Pc.try_undo, Pc.release_pop,
        Pc.acquire_enter, Pc.acquire_enter], []⟩ [1, 3, 3, 4, 4, 4, 4, 2] =
      some ⟨⟨-1, 1, []⟩, [Pc.dropped, Pc.try_failed, Pc.release_done,
        Pc.holding, Pc.holding], []⟩ ∧
    Sys.live ⟨⟨-1, 1, []⟩, [Pc.dropped, Pc.try_failed, Pc.release_done,
        Pc.holding, Pc.holding], []⟩ = 2 := by
  refine ⟨by decide, by decide, by decide, by decide, by decide⟩

/-! ## Release in serialized runs -/

/-- A context in the queue after a step was there before, or the step is
its own `acquire`. -/
theorem step_pushed (w w1 : World) (op : Op) (ev : List Event)
    (h : w.step op = some (w1, ev)) :
    ∀ x ∈ w1.gov.waiting_contexts_, x ∈ w.gov.waiting_contexts_ ∨ op = Op.acquire x := by
  intro x hx
  cases op with
  | acquire c =>
    simp [World.step, impl.call] at h
    obtain ⟨-, rfl, -⟩ := h
    simp only [impl.acquire_ticket] at hx
    split at hx
    · exact Or.inl hx
    · split at hx
      · simp only [List.mem_append, List.mem_singleton] at hx
        rcases hx with hx | rfl
        · exact Or.inl hx
        · exact Or.inr rfl
      · exact Or.inl hx
  | try_acquire c =>
    simp [World.step, impl.call] at h
    obtain ⟨rfl, -⟩ := h
    simp only [impl.try_acquire_ticket] at hx
    split at hx
    · exact Or.inl hx
    · split at hx <;> exact Or.inl hx
  | release c =>
    simp only [World.step, impl.call] at h
    split at h
    · cases hr : w.gov.release_ticket with
      | none => simp [hr] at h
      | some r =>
        simp [hr] at h
        obtain ⟨rfl, -⟩ := h
        simp only [impl.release_ticket] at hr
        split at hr
        · simp at hr; rw [← hr] at hx; exact Or.inl hx
        · split at hr
          · cases hq : w.gov.waiting_contexts_ with
            | nil => simp [hq, try_pop] at hr
            | cons y rest =>
              simp [hq, try_pop] at hr
              rw [← hr] at hx
              simp only at hx
              exact Or.inl (List.mem_cons_of_mem y hx)
          · simp at hr; rw [← hr] at hx; exact Or.inl hx
    · simp at h
  | cancel =>
    simp [World.step, impl.call, cancel_eq] at h
    obtain ⟨rfl, -⟩ := h
    simp at hx

theorem run_pushed (ops : List Op) : ∀ (w w1 : World) (evs : List (List Event)),
    w.run ops = some (w1, evs) →
    ∀ x ∈ w1.gov.waiting_contexts_, x ∈ w.gov.waiting_contexts_ ∨ Op.acquire x ∈ ops := by
  induction ops with
  | nil =>
    intro w w1 evs h x hx
    simp [World.run] at h
    rw [← h.1] at hx
    exact Or.inl hx
  | cons op ops ih =>
    intro w w1 evs h x hx
    obtain ⟨w2, ev, evs2, hs, hr, -⟩ := run_cons_some w w1 op ops evs h
    rcases ih w2 w1 evs2 hr x hx with h2 | h2
    · rcases step_pushed w w2 op ev hs x h2 with h3 | h3
      · exact Or.inl h3
      · exact Or.inr (by simp [h3])
    · exact Or.inr (List.mem_cons_of_mem op h2)

end governor

/-! ## filter::try_pop -/

namespace filter

theorem try_pops_all {Frame : Type} (b : List Frame) : ∀ (frame : Frame),
    try_pops ⟨⟨b⟩⟩ frame b.length =
      (b.map fun x => (true, x), b.getLastD frame, ⟨⟨[]⟩⟩) := by
  induction b with
  | nil => intro frame; rfl
  | cons x rest ih =>
    intro frame
    simp only [List.length_cons, try_pops, try_pop, implementation.try_pop, ih x,
      List.map_cons, List.getLastD_cons]

theorem try_pops_one_more {Frame : Type} (b : List Frame) : ∀ (frame : Frame),
    try_pops ⟨⟨b⟩⟩ frame (b.length + 1) =
      ((b.map fun x => (true, x)) ++ [(false, b.getLastD frame)],
        b.getLastD frame, ⟨⟨[]⟩⟩) := by
  induction b with
  | nil => intro frame; rfl
  | cons x rest ih =>
    intro frame
    have h := ih x
    simp only [List.length_cons] at h ⊢
    rw [try_pops]
    simp only [try_pop, implementation.try_pop, h, List.map_cons, List.getLastD_cons,
      List.cons_append]

/-- Claim C19: `filter::try_pop` is a FIFO dequeue on the output buffer. On
an empty buffer it returns false and leaves the buffer and the caller's
`frame` unchanged. Otherwise it returns true, sets `frame` to the former
front element, removes exactly that element, keeps the order of the others,
and `size()` goes down by exactly 1. Draining a buffer of `n` frames: the
first `n` calls all succeed and return the frames in the order they stand in
the buffer, the next call fails and leaves `frame` at the last frame
returned, and the buffer is empty. -/
theorem try_pop_fifo {Frame : Type} (f : filter Frame) (frame : Frame) :
    (f.impl_.buffer_ = [] → f.try_pop frame = (false, frame, f)) ∧
    (∀ front rest, f.impl_.buffer_ = front :: rest →
      f.try_pop frame = (true, front, ⟨⟨rest⟩⟩) ∧
      (f.try_pop frame).2.2.size + 1 = f.size) ∧
    f.try_pops frame f.size =
      (f.impl_.buffer_.map fun x => (true, x), f.impl_.buffer_.getLastD frame, ⟨⟨[]⟩⟩) ∧
    f.try_pops frame (f.size + 1) =
      ((f.impl_.buffer_.map fun x => (true, x)) ++
          [(false, f.impl_.buffer_.getLastD frame)],
        f.impl_.buffer_.getLastD frame, ⟨⟨[]⟩⟩) := by
  obtain ⟨⟨b⟩⟩ := f
  refine ⟨?_, ?_, try_pops_all b frame, try_pops_one_more b frame⟩
  · intro h
    simp only at h
    subst h
    rfl
  · intro front rest h
    simp only at h
    subst h
    exact ⟨rfl, rfl⟩

/-- A buffer of three frames, with `frame` holding 0 before the calls. -/
theorem try_pop_fifo_witness :
    try_pop (⟨⟨[1, 2, 3]⟩⟩ : filter Nat) 0 = (true, 1, ⟨⟨[2, 3]⟩⟩) ∧
    (try_pop (⟨⟨[1, 2, 3]⟩⟩ : filter Nat) 0).2.2.size + 1 =
      size (⟨⟨[1, 2, 3]⟩⟩ : filter Nat) :=
  (try_pop_fifo (⟨⟨[1, 2, 3]⟩⟩ : filter Nat) 0).2.1 1 [2, 3] rfl

end filter

end caspar
